import Mathlib

/-!
# Verification of the `vcf2db` adaptive ingestion pipeline

A shallow embedding of `vcf2db.py` (single source file of the repository).
Python dictionaries are modelled as association lists over `String` keys,
Python values by the inductive `DVal`, machine integers by `Nat`/`Int`,
and raising an exception by `Except`/`Option` results.  External
collaborators (the SQL engine, the snappy/zlib compressors, the pickle
serialiser and the `geneimpacts` severity ranking) are not part of the
source; where a claim depends on them they are modelled from the spec and
marked `Modelled from the spec:` in their doc comment.
-/

namespace Vcf2db

/-- A Python value as it appears in the per-variant dictionaries of
`vcf2db.py`: `None`, a bool, an int, a str, or an opaque byte blob
(the result of a blobber / a numpy array's bytes). -/
inductive DVal where
  | vnull
  | vbool (b : Bool)
  | vint (n : Int)
  | vstr (s : String)
  | vblob (bs : List Nat)
deriving DecidableEq

/-- A Python dict with string keys, as an association list.  All dicts
built by the source keep at most one entry per key (`aput` overwrites). -/
abbrev Dict := List (String × DVal)

instance {ε α : Type} [DecidableEq ε] [DecidableEq α] : DecidableEq (Except ε α) :=
  fun a b =>
    match a, b with
    | .ok x, .ok y => decidable_of_iff (x = y) (by simp)
    | .error x, .error y => decidable_of_iff (x = y) (by simp)
    | .ok _, .error _ => isFalse (by simp)
    | .error _, .ok _ => isFalse (by simp)

/-- Lookup in an association list (first matching key). -/
def aget {β : Type} : List (String × β) → String → Option β
  | [], _ => none
  | (k, v) :: rest, k' => if k = k' then some v else aget rest k'

/-- `d[k] = v` on an association list: overwrite the existing entry for
`k` in place, or append a new entry at the end (Python dict semantics). -/
def aput {β : Type} : List (String × β) → String → β → List (String × β)
  | [], k, v => [(k, v)]
  | (k0, v0) :: rest, k, v =>
    if k0 = k then (k, v) :: rest else (k0, v0) :: aput rest k v

/-- `del d[k]` (no error if the key is absent; the source only deletes
keys it has just found). -/
def adel {β : Type} : List (String × β) → String → List (String × β)
  | [], _ => []
  | (k0, v0) :: rest, k =>
    if k0 = k then adel rest k else (k0, v0) :: adel rest k

/-- `d.keys()`. -/
def akeys {β : Type} (l : List (String × β)) : List String := l.map Prod.fst

/-- The Python `dict(pairs)` constructor: fold the pairs into an empty
dict, later pairs overwriting earlier ones. -/
def dictOf (l : List (String × DVal)) : Dict :=
  l.foldl (fun d kv => aput d kv.1 kv.2) []

/-- `u.update(d)`: every entry of `d` is written into `u` in order. -/
def updateDict (u d : Dict) : Dict :=
  d.foldl (fun u kv => aput u kv.1 kv.2) u

/-- `dict.fromkeys(ks)`: every key of `ks` mapped to `None`. -/
def fromkeys (ks : List String) : Dict :=
  ks.foldl (fun u k => aput u k .vnull) []

/-- `d.get(k)` with default `None` (Python returns the `None` object). -/
def agetD (d : Dict) (k : String) : DVal :=
  (aget d k).getD .vnull

theorem aget_aput {β : Type} (l : List (String × β)) (k k' : String) (v : β) :
    aget (aput l k v) k' = if k = k' then some v else aget l k' := by
  induction l with
  | nil => by_cases h : k = k' <;> simp [aget, aput, h]
  | cons hd t ih =>
    obtain ⟨k0, v0⟩ := hd
    by_cases h0 : k0 = k
    · subst h0
      by_cases h1 : k0 = k' <;> simp [aget, aput, h1]
    · by_cases h1 : k0 = k'
      · subst h1
        have hkk : ¬ k = k0 := fun h => h0 h.symm
        simp [aget, aput, h0, hkk]
      · simp [aget, aput, h0, h1, ih]

theorem aget_aput_self {β : Type} (l : List (String × β)) (k : String) (v : β) :
    aget (aput l k v) k = some v := by
  simp [aget_aput]

theorem aget_aput_ne {β : Type} (l : List (String × β)) (k k' : String) (v : β)
    (h : k ≠ k') : aget (aput l k v) k' = aget l k' := by
  simp [aget_aput, h]

/-! ## Python string helpers used by the source -/

/-- Python's `\s` character class (ASCII, as in `re` for byte strings). -/
def wsChars : List Char := [' ', '\t', '\n', '\r', '\x0b', '\x0c']

/-- The double-quote character. -/
def dq : Char := Char.ofNat 34

/-- The single-quote character. -/
def sq : Char := Char.ofNat 39

/-- `s.strip(cs)`: remove the characters of `cs` from both ends. -/
def pyStrip (cs : List Char) (s : String) : String :=
  ⟨((s.data.dropWhile (· ∈ cs)).reverse.dropWhile (· ∈ cs)).reverse⟩

/-- `s.lower()` (ASCII, which covers every id the source handles). -/
def pyLower (s : String) : String := ⟨s.data.map Char.toLower⟩

/-- Single-character `s.replace(old, new)` as a character map. -/
def pyReplaceChar (old new : Char) (s : String) : String :=
  ⟨s.data.map fun c => if c = old then new else c⟩

/-- `s.endswith(suf)`. -/
def pyEndsWith (s suf : String) : Bool := suf.data.isSuffixOf s.data

/-- `s.startswith(pre)`. -/
def pyStartsWith (s p : String) : Bool := p.data.isPrefixOf s.data

/-- `s.islower()`: at least one cased character and no uppercase one
(ASCII reading, which covers every key the source handles). -/
def pyIsLower (s : String) : Bool :=
  s.data.any (fun c => c.isLower) && s.data.all (fun c => ¬ c.isUpper)

/-- The part of `s` after the first `c`, i.e. `s.split(c, 1)[1]`;
`none` when `c` does not occur (Python raises `IndexError` there). -/
def pyAfterFirst (c : Char) (s : String) : Option String :=
  let l := s.data.dropWhile (· ≠ c)
  match l with
  | [] => none
  | _ :: rest => some ⟨rest⟩

/-- Split a character list at any of the characters in `cs`
(each occurrence separates, empty pieces kept) — `re.split` on a
single-character alternation. -/
def splitOnCharsAux (cs : List Char) : List Char → List Char → List String
  | acc, [] => [⟨acc.reverse⟩]
  | acc, c :: rest =>
    if c ∈ cs then ⟨acc.reverse⟩ :: splitOnCharsAux cs [] rest
    else splitOnCharsAux cs (c :: acc) rest

/-- `re.split("\||\(", s)`-style splitting on a set of single characters. -/
def splitOnChars (cs : List Char) (s : String) : List String :=
  splitOnCharsAux cs [] s.data

/-- Strip whitespace from the left end of a string. -/
def stripWsLeft (s : String) : String := ⟨s.data.dropWhile (· ∈ wsChars)⟩

/-- Strip whitespace from the right end of a string. -/
def stripWsRight (s : String) : String := ⟨(s.data.reverse.dropWhile (· ∈ wsChars)).reverse⟩

/-- `re.split("\s*\|\s*", s)`: split on `|`, the whitespace adjacent to
each `|` being consumed by the separator (whitespace at the two ends of
the whole string survives). -/
def regexSplitPipeWs (s : String) : List String :=
  let ps := splitOnChars ['|'] s
  let n := ps.length
  (ps.enum.map fun (i, p) =>
    let p := if i > 0 then stripWsLeft p else p
    if i + 1 < n then stripWsRight p else p)

/-! ## `clean` and the INFO-column inference (`variants_info_columns`) -/

/-- `clean(name)` — source lines 99–103: turn a vcf id into a db name:
replace `-` and space by `_`, strip surrounding double quotes, then
surrounding single quotes, and lowercase. -/
def clean (name : String) : String :=
  pyLower (pyStrip [sq] (pyStrip [dq]
    (pyReplaceChar ' ' '_' (pyReplaceChar '-' '_' name))))

/-- SQL column types used by the source (`sqlalchemy` types). -/
inductive SqlT where
  | integer
  | float
  | boolean
  | smallint
  | varchar (len : Nat)
  | text
  | largeBinary
deriving DecidableEq

/-- A declared table column. -/
structure Col where
  name : String
  typ : SqlT
deriving DecidableEq

/-- `type_lookups` — source lines 116–122 (a missing VCF type raises
`KeyError`, modelled as `none`). -/
def type_lookups : String → Option SqlT
  | "Integer" => some .integer
  | "Float" => some .float
  | "Flag" => some .boolean
  | "Character" => some (.varchar 1)
  | "String" => some (.varchar 5)
  | _ => none

/-- One parsed `##INFO` header entry (the result of `info_parse`,
restricted to the fields the source reads). -/
structure InfoEntry where
  ID : String
  Typ : String        -- the "Type" key of the header entry (`Type` is reserved in Lean)
  Description : String

/-- `VCFDB.effect_list`. -/
def effect_list : List String := ["CSQ", "ANN", "EFF"]

/-- The annotation header registry `self.impacts_headers`. -/
abbrev Registry := List (String × List String)

/-- `VCFDB.update_impacts_headers` — source lines 532–544.  Returns the
new registry together with the raised exception, if any; on a raise the
registry is returned unchanged because the assignment on line 544 is
only reached after a successful parse. -/
def update_impacts_headers (hdr : InfoEntry) (reg : Registry) :
    Registry × Option String :=
  let desc := hdr.Description
  if hdr.ID = "ANN" then
    match pyAfterFirst ':' desc with
    | none => (reg, some "IndexError: list index out of range")
    | some tail =>
      let parts := (regexSplitPipeWs (pyStrip [dq, ' '] tail)).map (pyStrip [dq, sq])
      (aput reg hdr.ID parts, none)
  else if hdr.ID = "EFF" then
    match pyAfterFirst ':' desc with
    | none => (reg, some "IndexError: list index out of range")
    | some tail =>
      let parts := (splitOnChars ['|', '('] (pyStrip wsChars tail)).map
        (pyStrip [' ', '[', ']', ')', sq, '(', dq])
      (aput reg hdr.ID parts, none)
  else if hdr.ID = "CSQ" then
    match pyAfterFirst ':' desc with
    | none => (reg, some "IndexError: list index out of range")
    | some tail =>
      let parts := (splitOnChars ['|', '('] (pyStrip wsChars tail)).map
        (pyStrip [' ', '[', ']', ')', sq, '(', dq])
      (aput reg hdr.ID parts, none)
  else
    (reg, some ("do not know how to use " ++ hdr.ID ++ " as annotation"))

/-- `VCFDB.variants_info_columns` — source lines 546–567: one `Column`
per `##INFO` header entry, skipping annotation encodings (which go to
the registry) and black-listed ids; the cleaned id `id` is renamed to
`idx`; allele-frequency-shaped ids become `Float` columns; otherwise the
VCF type is mapped through `type_lookups`. -/
def variants_info_columns (black_list : List String) :
    List InfoEntry → Registry → Except String (List Col × Registry)
  | [], reg => .ok ([], reg)
  | d :: rest, reg =>
    if d.ID ∈ effect_list then
      match update_impacts_headers d reg with
      | (reg', none) => variants_info_columns black_list rest reg'
      | (_, some e) => .error e
    else
      let id := clean d.ID
      if d.ID ∈ black_list ∨ id ∈ black_list then
        variants_info_columns black_list rest reg
      else
        let id := if id = "id" then "idx" else id
        if (["_af", "_aaf"].any fun suf => pyEndsWith id suf) ∨
           (["af_", "aaf_", "an_"].any fun pre => pyStartsWith id pre) then
          match variants_info_columns black_list rest reg with
          | .ok (cs, r) => .ok (⟨id, .float⟩ :: cs, r)
          | .error e => .error e
        else
          match type_lookups d.Typ with
          | none => .error ("KeyError: " ++ d.Typ)
          | some ty =>
            match variants_info_columns black_list rest reg with
            | .ok (cs, r) => .ok (⟨id, ty⟩ :: cs, r)
            | .error e => .error e

/-- Formalised from the claim's words (C10, refinement spec): the column
name is the attribute id with `-` and space replaced by `_`, surrounding
double then single quotes stripped, lowercased; `id` becomes `idx`. -/
def specColumnName (id : String) : String :=
  let c := pyLower (pyStrip [sq] (pyStrip [dq]
    (pyReplaceChar ' ' '_' (pyReplaceChar '-' '_' id))))
  if c = "id" then "idx" else c

/-! ## The genotype-blob encoders (`snappy_pack_blob`, `pack_blob`) -/

/-- A (non-`None`) numpy array as the blobbers see it: either a string
array (dtype char `S`, byte code 83) or a numeric array with its dtype
character code and its raw `tobytes()` payload. -/
inductive NpArray where
  | strs (elems : List (List Nat))
  | nums (c : Nat) (raw : List Nat)
deriving DecidableEq

/-- The numpy `dtype.char` of the array (`'S'` = 83 for string arrays). -/
def NpArray.dtypeChar : NpArray → Nat
  | .strs _ => 83
  | .nums c _ => c

/-- `SEP = '\0'` — source line 87. -/
def SEP : Nat := 0

/-- `sep.join(obj)` on a string array. -/
def joinSep (sep : Nat) : List (List Nat) → List Nat
  | [] => []
  | [x] => x
  | x :: y :: rest => x ++ sep :: joinSep sep (y :: rest)

/-- `snappy_pack_blob` — source lines 88–92, parameterised by the
external snappy compressor (an opaque byte transformer): `None` maps to
the empty string; a string array to `'S' ++ compress(joined elems)`; any
other array to its dtype char followed by `compress(tobytes())`. -/
def snappy_pack_blob (compress : List Nat → List Nat) :
    Option NpArray → List Nat
  | none => []
  | some (.strs es) => 83 :: compress (joinSep SEP es)
  | some (.nums c raw) => c :: compress raw

/-- Modelled from the spec: compression is an external primitive (spec
§1 non-goals).  A zlib stream is modelled by its fixed RFC-1950 header —
first byte always `0x78` = 120, second byte the level-dependent flag —
followed by an opaque payload derived from the input; only the header
bytes are used by any theorem below. -/
def zlibCompress (flg : Nat) (data : List Nat) : List Nat :=
  120 :: flg :: data

/-- Modelled from the spec: pickle serialisation is an external
primitive.  Modelled as an opaque byte encoding carrying the protocol-2
magic; `None` pickles to the fixed 4-byte sequence. -/
def pickleDumps : Option NpArray → List Nat
  | none => [128, 2, 78, 46]
  | some (.strs es) => 128 :: 2 :: 83 :: joinSep 0 es
  | some (.nums c raw) => 128 :: 2 :: c :: raw

/-- The `_none` default argument of `pack_blob` — source line 94:
`zlib.compress(pickle.dumps(None, HIGHEST_PROTOCOL))` computed once at
definition time (default zlib level, flag byte 0x9C = 156). -/
def pack_blob_none : List Nat := zlibCompress 156 (pickleDumps none)

/-- `pack_blob` — source lines 94–96: `None` returns the precomputed
`_none` blob; anything else is pickled and zlib-compressed at level 1
(flag byte 0x01). -/
def pack_blob (obj : Option NpArray) : List Nat :=
  match obj with
  | none => pack_blob_none
  | some a => zlibCompress 1 (pickleDumps (some a))

/-! ## Column widths: `set_column_length`, `check_column_lengths`, `_create` -/

/-- The width update of `set_column_length` — source lines 70–73: if the
current length already covers the request nothing happens, otherwise the
declared length becomes the request.  (The `ALTER TABLE` emission for
postgres/mysql is the storage collaborator's side of the same update.) -/
def set_column_length_width (cur req : Nat) : Nat :=
  if cur ≥ req then cur else req

/-- `set_column_length` lifted to a table's varchar-column list: the
entry (entries) named `name` get the width update, the rest are kept. -/
def set_column_length (cols : List (String × Nat)) (name : String) (req : Nat) :
    List (String × Nat) :=
  cols.map fun nl =>
    (nl.1, if nl.1 = name then set_column_length_width nl.2 req else nl.2)

/-- Apply a batch of `(name, length)` change requests in order — the
loops at the top of `VCFDB._insert` (source lines 280–282 and 286–288). -/
def applyLengths (cols : List (String × Nat)) (changes : List (String × Nat)) :
    List (String × Nat) :=
  changes.foldl (fun cs nl => set_column_length cs nl.1 nl.2) cols

/-- `len(d.get(name) or '')` for the values a `String` column holds
(a string, `None`, or an absent key; other value kinds would raise
`TypeError` in the source and do not reach these columns). -/
def lenOrZero (v : Option DVal) : Nat :=
  match v with
  | some (.vstr s) => s.length
  | _ => 0

/-- The inner loop of `check_column_lengths` for one column: the
maximum length of the values of the batch exceeding the current
declared length `l` (0 when none exceeds it). -/
def maxExceed (k : String) (l : Nat) (dicts : List Dict) : Nat :=
  dicts.foldl
    (fun acc d =>
      if lenOrZero (aget d k) > l then max acc (lenOrZero (aget d k)) else acc) 0

/-- `VCFDB.check_column_lengths` — source lines 219–226: for every
varchar column, the maximum length of the values of the batch exceeding
the current declared length (an entry exists only when some value
exceeds it, i.e. when the maximum is positive). -/
def check_column_lengths (dicts : List Dict) (cols : List (String × Nat)) :
    List (String × Nat) :=
  cols.filterMap fun nl =>
    if maxExceed nl.1 nl.2 dicts = 0 then none else some (nl.1, maxExceed nl.1 nl.2 dicts)

/-- `str(d.get(name, ''))` as seen by `VCFDB._create` (source line 341):
an absent key gives `''`, the `None` object prints as `None` (4 chars).
Blob values never sit under a `String` column, their repr is irrelevant. -/
def pyStrOfGet (v : Option DVal) : String :=
  match v with
  | none => ""
  | some .vnull => "None"
  | some (.vbool b) => if b then "True" else "False"
  | some (.vint n) => toString n
  | some (.vstr s) => s
  | some (.vblob _) => ""

/-- `len(d[name])` as used on the growth line 343 of `VCFDB._create`
(`None` and numbers have no `len` — `TypeError`, modelled as `none`). -/
def pyLenOf (v : Option DVal) : Option Nat :=
  match v with
  | some (.vstr s) => some s.length
  | some (.vblob bs) => some bs.length
  | _ => none

/-- The column state `_create` evolves: still a tracked varchar width,
or converted to unbounded `TEXT`. -/
inductive ColT where
  | vchar (len : Nat)
  | text
deriving DecidableEq

/-- The inner loop of `VCFDB._create` for one `String` column — source
lines 339–350: for each sampled dict in order, if the current length is
smaller than `len(str(d.get(name, '')))` the length becomes
`int(1.2 * len(d[name]) + 0.5)`; whenever the length exceeds 48 the
column becomes `TEXT` and the scan of this column stops.  The source
computes `int(1.2 * L + 0.5)` in floating point; since `(12L+5)/10` is
never an integer and the float error is far below the distance to the
nearest integer, this equals `(12 * L + 5) / 10` in `Nat`. -/
def _create_col : Nat → List (Option DVal) → Except String ColT
  | l, [] => .ok (.vchar l)
  | l, v :: rest =>
    if l < (pyStrOfGet v).length then
      match pyLenOf v with
      | none => .error "TypeError: object has no len()"
      | some n =>
        let l' := (12 * n + 5) / 10
        if l' > 48 then .ok .text else _create_col l' rest
    else
      if l > 48 then .ok .text else _create_col l rest

/-- `VCFDB._create` — source lines 335–350: every `String` column is
scanned independently over the sampled dicts.  (The `exclude_cols` set
of the source only matters for duplicate column names, which cannot
occur since `cols` is a Python dict keyed by name.) -/
def _create (dicts : List Dict) (cols : List (String × Nat)) :
    Except String (List (String × ColT)) :=
  cols.foldr
    (fun nl acc =>
      match _create_col nl.2 (dicts.map fun d => aget d nl.1) with
      | .error e => .error e
      | .ok t =>
        match acc with
        | .error e => .error e
        | .ok rest => .ok ((nl.1, t) :: rest))
    (.ok [])

/-- Formalised from the claim's words (C5, refinement spec): the grown
width claimed by the spec, `ceil(1.2 × max_observed_length)` =
`ceil(6L/5)`. -/
def specGrowWidth (maxLen : Nat) : Nat := (6 * maxLen + 4) / 5

/-! ## The storage collaborator and the chunked loader `__insert` -/

/-- How a committed row reached the store: through a bulk
`engine.execute(stmt, objs)` or through the row-at-a-time transactional
retry. -/
inductive Mode where
  | bulk
  | row
deriving DecidableEq

/-- The durable store: a log of committed rows in commit order
(`table name`, mode, row). -/
structure DB where
  log : List (String × Mode × Dict)
deriving DecidableEq

/-- Exceptions crossing the loader. -/
inductive PyErr where
  | bulkFail (table : String)
  | rowFail (table : String) (row : Dict)
  | pyexc (msg : String)
deriving DecidableEq

/-- Modelled from the spec (§6 storage collaborator): the relational
engine.  `rowOk` decides whether a single-row insert into a table
succeeds; `bulkExtra` is a backend-level failure of a batched insert
(payload limits etc.) that can hit even a batch of individually valid
rows. -/
structure Engine where
  dialect : String
  rowOk : String → Dict → Bool
  bulkExtra : String → List Dict → Bool

/-- A bulk `engine.execute(stmt, objs)`: atomic — either every row of
the batch is committed (in order, tagged `bulk`) or nothing is and the
call raises. -/
def engineExecuteMany (eng : Engine) (t : String) (g : List Dict) (db : DB) :
    DB × Option PyErr :=
  if eng.bulkExtra t g || !(g.all (eng.rowOk t)) then (db, some (.bulkFail t))
  else (⟨db.log ++ g.map (fun d => (t, Mode.bulk, d))⟩, none)

/-- `with engine.begin() as trans: for o in g: trans.execute(stmt, o)`:
the rows are executed one at a time inside a single transaction; the
first failing row raises and the transaction rolls back (nothing is
committed); if every row succeeds the transaction commits them all. -/
def engineBeginRows (eng : Engine) (t : String) (g : List Dict) (db : DB) :
    DB × Option PyErr :=
  match g.find? (fun d => ! eng.rowOk t d) with
  | some bad => (db, some (.rowFail t bad))
  | none => (⟨db.log ++ g.map (fun d => (t, Mode.row, d))⟩, none)

/-- One try/except block of `VCFDB.__insert` — source lines 302–309 and
311–317: try the bulk insert; on failure re-attempt the same chunk one
row at a time inside one transaction, then re-raise the original
failure (the bare `raise` is only reached when the row-level pass itself
did not raise; a failing row's own exception propagates instead). -/
def tryInsert (eng : Engine) (t : String) (g : List Dict) (db : DB) :
    DB × Option PyErr :=
  match engineExecuteMany eng t g db with
  | (db', none) => (db', none)
  | (_, some e) =>
    match engineBeginRows eng t g db with
    | (db2, none) => (db2, some e)
    | (db2, some e2) => (db2, some e2)

/-- `grouper(n, iterable)` — source lines 47–52. -/
def grouper {α : Type} (n : Nat) : List α → List (List α)
  | [] => []
  | x :: xs => (x :: xs.take (n - 1)) :: grouper n (xs.drop (n - 1))
termination_by l => l.length
decreasing_by
  simp only [List.length_cons, List.length_drop]
  omega

/-- The `for group in grouper(5000, objs)` loop of `__insert`: groups
are inserted in order and the first raising group aborts the loop. -/
def insertGroups (eng : Engine) (t : String) : List (List Dict) → DB → DB × Option PyErr
  | [], db => (db, none)
  | g :: gs, db =>
    match tryInsert eng t g db with
    | (db', none) => insertGroups eng t gs db'
    | (db', some e) => (db', some e)

/-- `VCFDB.__insert` — source lines 293–318: batches above 6000 rows are
split into sub-chunks of 5000 (the `engine.rollback()` line is the
storage collaborator's rollback primitive, a no-op on the committed
log); smaller batches are tried directly. -/
def __insert (eng : Engine) (t : String) (objs : List Dict) (db : DB) :
    DB × Option PyErr :=
  if objs.length > 6000 then insertGroups eng t (grouper 5000 objs) db
  else tryInsert eng t objs db

/-- The mutable loader state: the committed log plus the live declared
widths of the varchar columns of `variants` and `variant_impacts`. -/
structure RunState where
  db : DB
  vcols : List (String × Nat)
  vicols : List (String × Nat)
deriving DecidableEq

/-- `VCFDB._insert` — source lines 278–290: grow the `variants` widths,
bulk-insert the `variants` rows, then (only if that did not raise) grow
the `variant_impacts` widths and bulk-insert the impact rows. -/
def _insert (eng : Engine) (vlengths : List (String × Nat)) (v_objs : List Dict)
    (vilengths : List (String × Nat)) (vi_objs : List Dict) (st : RunState) :
    RunState × Option PyErr :=
  let vc := applyLengths st.vcols vlengths
  match __insert eng "variants" v_objs st.db with
  | (db1, some e) => ({ st with vcols := vc, db := db1 }, some e)
  | (db1, none) =>
    let vic := applyLengths st.vicols vilengths
    match __insert eng "variant_impacts" vi_objs db1 with
    | (db2, e2) => ({ db := db2, vcols := vc, vicols := vic }, e2)

/-- The `for k in expanded: self.__insert(expanded[k], ...)` loop at the
end of `VCFDB.insert` (source lines 259–260): one bulk insert per
expansion table `sample_<k>`, after the primary/impact inserts. -/
def insertExpanded (eng : Engine) : List (String × List Dict) → RunState →
    RunState × Option PyErr
  | [], st => (st, none)
  | (k, rows) :: rest, st =>
    match __insert eng ("sample_" ++ k) rows st.db with
    | (db', none) => insertExpanded eng rest { st with db := db' }
    | (db', some e) => ({ st with db := db' }, some e)

/-! ## The variant transform: `gene_info`, `top_severity`, `noner` -/

/-- One decoded annotation candidate (a `geneimpacts` effect object) as
the transform reads it: the queried fields, plus the severity rank the
external library orders candidates by. -/
structure Candidate where
  gene : DVal
  transcript : DVal
  is_exonic : DVal
  is_coding : DVal
  is_splicing : DVal
  is_lof : DVal
  exon : DVal
  codon_change : DVal
  aa_change : DVal
  aa_length : DVal
  biotype : DVal
  top_consequence : DVal
  so : DVal
  effect_severity : DVal
  polyphen_pred : DVal
  polyphen_score : DVal
  sift_pred : DVal
  sift_score : DVal
  sevRank : Nat
deriving DecidableEq

/-- `getattr(top, k)` where `top` is either a real candidate or the
`noner` sentinel (source lines 569–573), whose every attribute is
`None`.  Only the fixed keys of `gene_info` are ever queried. -/
def getattrC (top : Option Candidate) (k : String) : DVal :=
  match top with
  | none => .vnull
  | some c =>
    match k with
    | "gene" => c.gene
    | "transcript" => c.transcript
    | "is_exonic" => c.is_exonic
    | "is_coding" => c.is_coding
    | "is_splicing" => c.is_splicing
    | "is_lof" => c.is_lof
    | "exon" => c.exon
    | "codon_change" => c.codon_change
    | "aa_change" => c.aa_change
    | "aa_length" => c.aa_length
    | "biotype" => c.biotype
    | "top_consequence" => c.top_consequence
    | "so" => c.so
    | "effect_severity" => c.effect_severity
    | "polyphen_pred" => c.polyphen_pred
    | "polyphen_score" => c.polyphen_score
    | "sift_pred" => c.sift_pred
    | "sift_score" => c.sift_score
    | _ => .vnull

/-- The maximal severity rank among a candidate list. -/
def maxRank (l : List Candidate) : Nat :=
  l.foldr (fun c m => max c.sevRank m) 0

/-- Modelled from the spec: `geneimpacts.Effect.top_severity` is an
external collaborator (spec §1, §4.4 step 2: highest-severity candidate
wins, ties broken by first-encountered in decoding order).  It returns
`None` for an empty list, the unique maximal-severity candidate, or the
list of all maximal-severity candidates in decoding order. -/
def top_severity (effects : List Candidate) : Option (Candidate ⊕ List Candidate) :=
  if effects.isEmpty then none
  else
    match effects.filter (fun c => c.sevRank = maxRank effects) with
    | [c] => some (.inl c)
    | cs => some (.inr cs)

/-- The representative selection of `gene_info` — source lines 589–593:
`top[0]` when `top_severity` returns a tie list, the candidate itself
when unique, and the `noner` sentinel (`none`) when there are no
candidates. -/
def gene_info_top (impacts : List Candidate) : Option Candidate :=
  match top_severity impacts with
  | none => none
  | some (.inl c) => some c
  | some (.inr cs) => cs.head?

/-- `VCFDB.gt_cols` — source lines 130–131. -/
def gt_cols : List String :=
  ["gts", "gt_types", "gt_phases", "gt_depths", "gt_ref_depths",
   "gt_alt_depths", "gt_quals"]

/-- The `keys` tuple of `gene_info` — source lines 595–598. -/
def giKeys : List String :=
  ["gene", "transcript", "is_exonic", "is_coding", "is_splicing",
   "is_lof", "exon", "codon_change", "aa_change", "aa_length",
   "biotype", "top_consequence", "so", "effect_severity",
   "polyphen_pred", "polyphen_score", "sift_pred", "sift_score"]

/-- Map a fallible function over a list, propagating the first raise. -/
def mapExcept {α β : Type} (f : α → Except String β) : List α → Except String (List β)
  | [] => .ok []
  | x :: xs =>
    match f x with
    | .error e => .error e
    | .ok y =>
      match mapExcept f xs with
      | .error e => .error e
      | .ok ys => .ok (y :: ys)

/-- The `for c in gt_cols: d[c] = blobber(d[c])` loop — source lines
608–609 (`d[c]` raises `KeyError` when absent). -/
def blobGtCols (blobber : DVal → DVal) : List String → Dict → Except String Dict
  | [], d => .ok d
  | c :: cs, d =>
    match aget d c with
    | none => .error ("KeyError: " ++ c)
    | some v => blobGtCols blobber cs (aput d c (blobber v))

/-- One impact-table row — source lines 621–632, in source field order. -/
def giRow (vid : DVal) (c : Candidate) : Dict :=
  [("variant_id", vid), ("gene", c.gene), ("transcript", c.transcript),
   ("is_exonic", c.is_exonic), ("is_coding", c.is_coding),
   ("is_splicing", c.is_splicing), ("is_lof", c.is_lof),
   ("exon", c.exon), ("codon_change", c.codon_change),
   ("aa_change", c.aa_change), ("aa_length", c.aa_length),
   ("biotype", c.biotype), ("top_consequence", c.top_consequence),
   ("so", c.so), ("effect_severity", c.effect_severity),
   ("polyphen_pred", c.polyphen_pred), ("polyphen_score", c.polyphen_score),
   ("sift_pred", c.sift_pred), ("sift_score", c.sift_score)]

/-- The dict-rewriting stage of `gene_info` before the genotype columns
are blobbed — source lines 580–606: the raw annotation keys are removed
(`del d[k]`; the decoding itself is the external `geneimpacts`
collaborator), the representative's fields are projected onto the fixed
keys, and the `impact`/`impact_so`/`impact_severity` aliases are set. -/
def gene_info_d (top : Option Candidate) (d0 : Dict) : Dict :=
  let d := effect_list.foldl adel d0
  let d := giKeys.foldl (fun d k => aput d k (getattrC top k)) d
  let d := aput d "impact" (getattrC top "top_consequence")
  let d := aput d "impact_so" (getattrC top "so")
  aput d "impact_severity" (getattrC top "effect_severity")

/-- The `u` dict of `gene_info` — source lines 611–616:
`u = dict.fromkeys(req_cols)`, `u.update(d)`, and the
lowercase-aliasing loop `u[k.lower()] = d.get(k)` over the
non-lowercase required keys. -/
def gene_info_u (req_cols : List String) (d : Dict) : Dict :=
  let u := fromkeys req_cols
  let u := updateDict u d
  (req_cols.filter (fun k => ! pyIsLower k)).foldl
    (fun u k => aput u (pyLower k) (agetD d k)) u

/-- One iteration of the `for impact in impacts` loop — source lines
619–632: reading `d['variant_id']` (a `KeyError` when absent) and
building the impact row. -/
def giRowFor (u : Dict) (c : Candidate) : Except String Dict :=
  match aget u "variant_id" with
  | none => .error "KeyError: variant_id"
  | some vid => .ok (giRow vid c)

/-- `gene_info` — source lines 575–633.  The decoding of the raw
CSQ/ANN/EFF strings into candidates is the external `geneimpacts`
collaborator; the model receives the decoded candidate list next to the
dict.  Project the representative (`noner` when there are no
candidates) via `gene_info_d`, blob the genotype columns, build `u` via
`gene_info_u`, then emit one impact row per real candidate, each
carrying `d['variant_id']`. -/
def gene_info (blobber : DVal → DVal) (req_cols : List String)
    (inp : Dict × List Candidate) : Except String (Dict × List Dict) :=
  match blobGtCols blobber gt_cols (gene_info_d (gene_info_top inp.2) inp.1) with
  | .error e => .error e
  | .ok d =>
    let u := gene_info_u req_cols d
    match mapExcept (giRowFor u) inp.2 with
    | .error e => .error e
    | .ok gis => .ok (u, gis)

/-! ## `_load` and `load`: dict building and variant_id assignment -/

/-- One input record as `_load` reads it off the external variant
source: the `INFO` mapping, the (already `sample_idxs`-permuted)
genotype arrays per genotype column, the fixed accessors, and the
externally decoded annotation candidates. -/
structure RawRecord where
  INFO : List (String × DVal)
  gtval : String → DVal
  CHROM : String
  startPos : Int
  endPos : Int
  REF : String
  ALT : List String
  QUAL : DVal
  FILTER : DVal
  ID : DVal
  var_type : DVal
  sub_type : DVal
  call_rate : DVal
  num_hom_ref : DVal
  num_het : DVal
  num_hom_alt : DVal
  aaf : DVal
  cands : List Candidate

/-- The dict built for one record in the body of `VCFDB._load` — source
lines 174–187 (including `_set_variant_properties`, lines 158–165), in
source order, with `variant_id = i`. -/
def buildD (r : RawRecord) (i : Int) : Dict :=
  let d := dictOf r.INFO
  let d := gt_cols.foldl (fun d c => aput d c (r.gtval c)) d
  let d := aput d "chrom" (.vstr r.CHROM)
  let d := aput d "start" (.vint r.startPos)
  let d := aput d "end" (.vint r.endPos)
  let d := aput d "ref" (.vstr r.REF)
  let d := aput d "alt" (.vstr (String.intercalate "," r.ALT))
  let d := aput d "qual" r.QUAL
  let d := aput d "filter" r.FILTER
  let d := aput d "vcf_id" r.ID
  let d := aput d "variant_id" (.vint i)
  let d := aput d "type" r.var_type
  let d := aput d "sub_type" r.sub_type
  let d := aput d "call_rate" r.call_rate
  let d := aput d "num_hom_ref" r.num_hom_ref
  let d := aput d "num_het" r.num_het
  let d := aput d "num_hom_alt" r.num_hom_alt
  let d := aput d "aaf" r.aaf
  d

/-- The `enumerate(iterable, start=start)` loop of `VCFDB._load`: the
k-th record of the iterable gets `variant_id = start + k`.  (The
periodic flushes inside the loop hand the accumulated dicts to
`insert`; they do not touch the ids.) -/
def _loadDicts : List RawRecord → Int → List Dict
  | [], _ => []
  | r :: rs, i => buildD r i :: _loadDicts rs (i + 1)

/-- `VCFDB.load` — source lines 211–217: the first 10000 records (the
sampling cache) are loaded with `start=1`; `_load` returns the last
assigned index `i` and the remainder of the stream continues at `i+1`.
On an empty stream `_load` returns `None` and `start=None+1` raises
`TypeError`. -/
def load (records : List RawRecord) : Except String (List Dict) :=
  match records.take 10000 with
  | [] => .error "TypeError: unsupported operand types for +: NoneType and int"
  | cache =>
    let i : Int := cache.length
    .ok (_loadDicts cache 1 ++ _loadDicts (records.drop 10000) (i + 1))

/-- The steady-state (`create=False`) body of `VCFDB.insert` — source
lines 228–261: run `gene_info` over the chunk, collect the transformed
primary rows and the concatenated impact rows, compute the width growth
for both tables unless the dialect is sqlite, run `_insert`, then insert
the expansion tables. -/
def insert (eng : Engine) (blobber : DVal → DVal) (req_cols : List String)
    (chunk : List (Dict × List Candidate)) (expanded : List (String × List Dict))
    (st : RunState) : RunState × Option PyErr :=
  match mapExcept (gene_info blobber req_cols) chunk with
  | .error e => (st, some (.pyexc e))
  | .ok pairs =>
    let ivariants := pairs.map Prod.fst
    let variant_impacts := (pairs.map Prod.snd).flatten
    let vlengths :=
      if eng.dialect = "sqlite" then [] else check_column_lengths ivariants st.vcols
    let vilengths :=
      if eng.dialect = "sqlite" then [] else check_column_lengths variant_impacts st.vicols
    match _insert eng vlengths ivariants vilengths variant_impacts st with
    | (st1, some e) => (st1, some e)
    | (st1, none) => insertExpanded eng expanded st1

/-! ## Claim formalisations and concrete instances -/

/-- Claim C1 at one steady-state `insert` call: before any batch insert
the width is grown so that no string value actually inserted is longer
than the column's declared width at insert time. -/
@[reducible]
def ClaimC1At (eng : Engine) (blobber : DVal → DVal) (req_cols : List String)
    (chunk : List (Dict × List Candidate)) (expanded : List (String × List Dict))
    (st : RunState) : Prop :=
  ∀ e ∈ (insert eng blobber req_cols chunk expanded st).1.db.log,
    e.1 = "variants" →
    ∀ nl ∈ (insert eng blobber req_cols chunk expanded st).1.vcols,
      lenOrZero (aget e.2.2 nl.1) ≤ nl.2

/-- Claim C2 at one `__insert` call: on a bulk failure every
individually valid row of the chunk ends up committed (via the row-level
retry) and the original bulk failure is re-raised; on bulk success the
rows are committed in one bulk write with no retry and no error. -/
@[reducible]
def ClaimC2At (eng : Engine) (t : String) (objs : List Dict) (db : DB) : Prop :=
  ((eng.bulkExtra t objs || !(objs.all (eng.rowOk t))) = true →
    (∀ o ∈ objs, eng.rowOk t o = true →
      (t, Mode.row, o) ∈ (__insert eng t objs db).1.log) ∧
    (__insert eng t objs db).2 = some (.bulkFail t))
  ∧ ((eng.bulkExtra t objs || !(objs.all (eng.rowOk t))) = false →
    __insert eng t objs db =
      (⟨db.log ++ objs.map (fun d => (t, Mode.bulk, d))⟩, none))

/-- An engine that accepts everything (used by witnesses). -/
def engOk : Engine := ⟨"postgresql", fun _ _ => true, fun _ _ => false⟩

/-- The engine of the C2 counterexample: a row is rejected exactly when
it carries a `bad` key; bulk inserts have no extra failure mode. -/
def c2eng : Engine := ⟨"postgresql", fun _ d => (aget d "bad").isNone, fun _ _ => false⟩

/-- An individually valid row. -/
def c2good : Dict := [("variant_id", DVal.vint 1)]

/-- A row whose single-row insert fails. -/
def c2bad : Dict := [("variant_id", DVal.vint 2), ("bad", DVal.vnull)]

/-- A sqlite engine accepting everything (C1 counterexample). -/
def c1eng : Engine := ⟨"sqlite", fun _ _ => true, fun _ _ => false⟩

/-- The C1/C9 counterexample record: empty INFO, null genotype arrays. -/
def c9rec : RawRecord :=
  ⟨[], fun _ => .vnull, "chr1", 0, 1, "A", ["T"], .vnull, .vnull, .vnull,
   .vnull, .vnull, .vnull, .vnull, .vnull, .vnull, .vnull, []⟩

/-- The dict `_load` builds for that record (variant_id 1). -/
def c9d : Dict := buildD c9rec 1

/-- The observed key set when this record is all the pass has seen. -/
def c9req : List String := akeys c9d

/-- The header of the C9 counterexample: one ordinary string attribute
`FOO`, which schema inference declares as column `foo`. -/
def c9info : List InfoEntry := [⟨"FOO", "String", "a string attribute"⟩]

/-- The transformed primary row of the C9 counterexample. -/
def c9u : Dict :=
  ((gene_info (fun v => v) c9req (c9d, [])).toOption.map Prod.fst).getD []

/-- A 60-character string value. -/
def s60 : String :=
  "abcdefghijabcdefghijabcdefghijabcdefghijabcdefghijabcdefghij"

/-- The C1 counterexample dict: a chunk row whose `sub_type` string is
longer than the declared width, together with every genotype column (so
the transform succeeds) and its `variant_id`. -/
def c1d : Dict :=
  [("sub_type", DVal.vstr s60), ("variant_id", DVal.vint 1),
   ("gts", DVal.vnull), ("gt_types", DVal.vnull), ("gt_phases", DVal.vnull),
   ("gt_depths", DVal.vnull), ("gt_ref_depths", DVal.vnull),
   ("gt_alt_depths", DVal.vnull), ("gt_quals", DVal.vnull)]

/-- The loader state of the C1 counterexample: `sub_type` declared as a
12-character varchar. -/
def c1st : RunState := ⟨⟨[]⟩, [("sub_type", 12)], []⟩

/-- The observed key set of the C1 counterexample chunk. -/
def c1req : List String := akeys c1d

/-- A candidate whose queried fields are null except `gene`, at a given
severity rank (used by concrete severity scenarios). -/
def mkCand (g : String) (r : Nat) : Candidate :=
  ⟨.vstr g, .vnull, .vnull, .vnull, .vnull, .vnull, .vnull, .vnull, .vnull,
   .vnull, .vnull, .vnull, .vnull, .vnull, .vnull, .vnull, .vnull, .vnull, r⟩

/-- The ANN header description of the C8 witness (single quotes built
explicitly). -/
def c8AnnDesc : String :=
  "Functional annotations: " ++ ⟨[sq]⟩ ++
  "Allele | Annotation | Annotation_Impact | Gene_Name" ++ ⟨[sq]⟩

/-- A concrete input record (C4 witness). -/
def c4rec : RawRecord :=
  ⟨[("DP", .vint 7)], fun _ => .vnull, "chr2", 5, 6, "C", ["G"], .vnull,
   .vnull, .vnull, .vnull, .vnull, .vnull, .vnull, .vnull, .vnull, .vnull, []⟩

/-! ## Helper lemmas -/

theorem aget_mem {β : Type} {l : List (String × β)} {k : String} {v : β}
    (h : aget l k = some v) : (k, v) ∈ l := by
  induction l with
  | nil => simp [aget] at h
  | cons hd t ih =>
    obtain ⟨k0, v0⟩ := hd
    by_cases h0 : k0 = k
    · subst h0
      simp [aget] at h
      simp [h]
    · simp [aget, h0] at h
      exact List.mem_cons_of_mem _ (ih h)

theorem head?_filter {α : Type} (p : α → Bool) (l : List α) :
    (l.filter p).head? = l.find? p := by
  induction l with
  | nil => rfl
  | cons x xs ih =>
    by_cases hx : p x <;> simp [List.filter_cons, List.find?_cons, hx, ih]

theorem exists_mem_maxRank (l : List Candidate) (h : l ≠ []) :
    ∃ c ∈ l, c.sevRank = maxRank l := by
  induction l with
  | nil => exact absurd rfl h
  | cons x xs ih =>
    rcases eq_or_ne xs [] with hxs | hxs
    · subst hxs
      exact ⟨x, List.mem_singleton_self x, by simp [maxRank]⟩
    · rcases ih hxs with ⟨c, hc, hrank⟩
      rcases le_or_lt x.sevRank (maxRank xs) with hle | hlt
      · refine ⟨c, List.mem_cons_of_mem _ hc, ?_⟩
        simp only [maxRank, List.foldr_cons] at *
        omega
      · refine ⟨x, List.mem_cons_self x xs, ?_⟩
        simp only [maxRank, List.foldr_cons] at *
        omega

theorem mapExcept_length {α β : Type} {f : α → Except String β} :
    ∀ {l : List α} {ys : List β}, mapExcept f l = .ok ys → ys.length = l.length := by
  intro l
  induction l with
  | nil => intro ys h; simp [mapExcept] at h; simp [← h]
  | cons x xs ih =>
    intro ys h
    simp only [mapExcept] at h
    cases hx : f x with
    | error e => rw [hx] at h; cases h
    | ok y =>
      rw [hx] at h
      cases hrest : mapExcept f xs with
      | error e => rw [hrest] at h; cases h
      | ok ys0 =>
        rw [hrest] at h
        cases h
        simp [ih hrest]

theorem mapExcept_mem {α β : Type} {f : α → Except String β} :
    ∀ {l : List α} {ys : List β}, mapExcept f l = .ok ys →
      ∀ y ∈ ys, ∃ x ∈ l, f x = .ok y := by
  intro l
  induction l with
  | nil => intro ys h y hy; simp [mapExcept] at h; subst h; simp at hy
  | cons x xs ih =>
    intro ys h y hy
    simp only [mapExcept] at h
    cases hx : f x with
    | error e => rw [hx] at h; cases h
    | ok y0 =>
      rw [hx] at h
      cases hrest : mapExcept f xs with
      | error e => rw [hrest] at h; cases h
      | ok ys0 =>
        rw [hrest] at h
        cases h
        rcases List.mem_cons.1 hy with hy0 | hy0
        · exact ⟨x, List.mem_cons_self _ _, by rw [hx, hy0]⟩
        · rcases ih hrest y hy0 with ⟨x1, hx1, hfx1⟩
          exact ⟨x1, List.mem_cons_of_mem _ hx1, hfx1⟩

/-! ## C7 — genotype-blob encoders: null sentinel and type tag -/

/-- Claim C7 as stated is false for the legacy encoder: a legacy
(`pack_blob`) blob of a string array begins with the zlib header byte
120, not with the element-kind tag 83 — the zlib-compressed pickle
carries no element-kind tag. -/
theorem claim_C7_counterexample :
    (pack_blob (some (.strs [[65]]))).head? = some 120 ∧
    NpArray.dtypeChar (.strs [[65]]) = 83 ∧
    ¬ (pack_blob (some (.strs [[65]]))).head? =
        some (NpArray.dtypeChar (.strs [[65]])) := by
  decide

/-- C7 amended: both encoders return one canonical constant blob for
null input (`pack_blob`'s is the `_none` default argument, computed once
at definition time; `snappy_pack_blob`'s is the empty string), and the
compact (snappy) encoder's non-null blobs begin with the numpy dtype
character as a self-describing type tag — the legacy encoder's blobs do
not carry such a tag (see the counterexample). -/
theorem claim_C7_amended :
    (∀ (compress : List Nat → List Nat) (a : NpArray),
        (snappy_pack_blob compress (some a)).head? = some a.dtypeChar)
    ∧ (∀ compress : List Nat → List Nat, snappy_pack_blob compress none = [])
    ∧ pack_blob none = pack_blob_none := by
  refine ⟨fun compress a => ?_, fun _ => rfl, rfl⟩
  cases a <;> rfl

/-! ## C5 — schema inference width growth -/

/-- Claim C5 as stated is false: a `Character` column (initial width 1)
observing a single 2-character value is grown to `int(1.2*2+0.5) = 2`,
not to `ceil(1.2*2) = 3` — the source rounds to nearest, it does not
take the ceiling. -/
theorem claim_C5_counterexample :
    _create [[("c", DVal.vstr "ab")]] [("c", 1)] = .ok [("c", .vchar 2)] ∧
    specGrowWidth 2 = 3 ∧
    _create [[("c", DVal.vstr "ab")]] [("c", 1)] ≠
      .ok [("c", .vchar (specGrowWidth 2))] := by
  decide

/-- The width `_create` leaves a still-varchar column with covers the
initial width and every observed string value. -/
theorem _create_col_str (vals : List String) :
    ∀ init : Nat,
      ∃ r, _create_col init (vals.map fun s => some (.vstr s)) = .ok r ∧
        (r = .text ∨ ∃ w, r = .vchar w ∧ init ≤ w ∧ ∀ s ∈ vals, s.length ≤ w) := by
  induction vals with
  | nil =>
    intro init
    exact ⟨.vchar init, rfl, .inr ⟨init, rfl, le_refl _, by simp⟩⟩
  | cons s rest ih =>
    intro init
    simp only [List.map_cons, _create_col, pyStrOfGet, pyLenOf]
    by_cases hgrow : init < s.length
    · simp only [if_pos hgrow]
      by_cases hcap : (12 * s.length + 5) / 10 > 48
      · exact ⟨.text, by simp [hcap], .inl rfl⟩
      · rcases ih ((12 * s.length + 5) / 10) with ⟨r, hr, hspec⟩
        refine ⟨r, by simp [hcap, hr], ?_⟩
        rcases hspec with htext | ⟨w, hw, hle, hbound⟩
        · exact .inl htext
        · refine .inr ⟨w, hw, ?_, ?_⟩
          · have hsl : s.length ≤ (12 * s.length + 5) / 10 := by omega
            omega
          · intro t ht
            rcases List.mem_cons.1 ht with h1 | h1
            · have hsl : s.length ≤ (12 * s.length + 5) / 10 := by omega
              rw [h1]
              omega
            · exact hbound t h1
    · simp only [if_neg hgrow]
      by_cases hcap : init > 48
      · exact ⟨.text, by simp [hcap], .inl rfl⟩
      · rcases ih init with ⟨r, hr, hspec⟩
        refine ⟨r, by simp [hcap, hr], ?_⟩
        rcases hspec with htext | ⟨w, hw, hle, hbound⟩
        · exact .inl htext
        · refine .inr ⟨w, hw, hle, ?_⟩
          intro t ht
          rcases List.mem_cons.1 ht with h1 | h1
          · subst h1; omega
          · exact hbound t h1

/-- C5 amended: during schema inference a `FixedString` column's width
is grown per observed value exceeding the current width, to
`int(1.2 * L + 0.5)` (round-half-up, not ceiling, and driven by the
last exceeding value, not by the maximum); a column crossing 48 becomes
unbounded `Text` and stops being tracked, and the final width of a
still-varchar column covers every value observed in the prefix.  A
10-character observation leaves the column at `varchar(12)`; a
60-character value later in the prefix converts it to `Text`, while a
60-character value after the prefix instead widens the live column to
exactly 60 (no cap, no `Text` conversion) on a non-sqlite backend. -/
theorem claim_C5_amended :
    (∀ (init : Nat) (vals : List String),
        ∃ r, _create_col init (vals.map fun s => some (.vstr s)) = .ok r ∧
          (r = .text ∨ ∃ w, r = .vchar w ∧ init ≤ w ∧ ∀ s ∈ vals, s.length ≤ w))
    ∧ _create_col 5 [some (.vstr "abcdefghij")] = .ok (.vchar 12)
    ∧ _create_col 12 [some (.vstr s60)] = .ok .text
    ∧ applyLengths [("sub_type", 12)]
        (check_column_lengths [[("sub_type", DVal.vstr s60)]] [("sub_type", 12)]) =
      [("sub_type", 60)] := by
  refine ⟨fun init vals => _create_col_str vals init, by decide, by decide, by decide⟩

/-- Witness for the amended C5 theorem at a concrete input. -/
theorem claim_C5_witness :
    ∃ r, _create_col 1 (["abc"].map fun s => some (.vstr s)) = .ok r ∧
      (r = .text ∨ ∃ w, r = .vchar w ∧ 1 ≤ w ∧ ∀ s ∈ ["abc"], s.length ≤ w) :=
  claim_C5_amended.1 1 ["abc"]

/-! ## C10 — inferred column naming -/

theorem specColumnName_eq (id : String) :
    specColumnName id = if clean id = "id" then "idx" else clean id := rfl

/-- C10: every INFO-inferred ordinary column is named by cleaning the
attribute id (dash/space to underscore, surrounding quotes stripped,
lowercased) with the cleaned name `id` renamed to `idx`; no inferred
column is ever named `id`. -/
theorem claim_C10 :
    ∀ (black_list : List String) (infos : List InfoEntry) (reg : Registry)
      (cols : List Col) (reg2 : Registry),
      variants_info_columns black_list infos reg = .ok (cols, reg2) →
      ∀ c ∈ cols, (∃ e ∈ infos, c.name = specColumnName e.ID) ∧ c.name ≠ "id" := by
  intro bl infos
  induction infos with
  | nil =>
    intro reg cols reg2 h c hc
    simp only [variants_info_columns, Except.ok.injEq, Prod.mk.injEq] at h
    rcases h with ⟨h1, _⟩
    subst h1
    simp at hc
  | cons d rest ih =>
    intro reg cols reg2 h c hc
    simp only [variants_info_columns] at h
    by_cases heff : d.ID ∈ effect_list
    · rw [if_pos heff] at h
      rcases hu : update_impacts_headers d reg with ⟨reg3, err⟩
      rw [hu] at h
      cases err with
      | none =>
        rcases ih _ _ _ h c hc with ⟨⟨e, he, hname⟩, hnid⟩
        exact ⟨⟨e, List.mem_cons_of_mem _ he, hname⟩, hnid⟩
      | some e => simp at h
    · rw [if_neg heff] at h
      by_cases hbl : d.ID ∈ bl ∨ clean d.ID ∈ bl
      · rw [if_pos hbl] at h
        rcases ih _ _ _ h c hc with ⟨⟨e, he, hname⟩, hnid⟩
        exact ⟨⟨e, List.mem_cons_of_mem _ he, hname⟩, hnid⟩
      · rw [if_neg hbl] at h
        set nm := if clean d.ID = "id" then "idx" else clean d.ID with hnm
        have hname : nm = specColumnName d.ID := by rw [specColumnName_eq, hnm]
        have hnid : nm ≠ "id" := by
          rw [hnm]
          by_cases hid : clean d.ID = "id"
          · rw [if_pos hid]; decide
          · rw [if_neg hid]; exact hid
        have hhead : ∀ ty0 : SqlT,
            c = Col.mk nm ty0 →
            (∃ e ∈ d :: rest, c.name = specColumnName e.ID) ∧ c.name ≠ "id" := by
          intro ty0 hcd
          subst hcd
          exact ⟨⟨d, List.mem_cons_self _ _, hname⟩, hnid⟩
        by_cases haf : ((["_af", "_aaf"].any fun suf => pyEndsWith nm suf) = true) ∨
            ((["af_", "aaf_", "an_"].any fun pre => pyStartsWith nm pre) = true)
        · rw [if_pos haf] at h
          rcases hrec : variants_info_columns bl rest reg with e | ⟨cs, r⟩ <;>
            rw [hrec] at h
          · simp at h
          · injection h with h2
            injection h2 with hcols hreg
            subst hcols
            rcases List.mem_cons.1 hc with hc0 | hc0
            · exact hhead _ hc0
            · rcases ih _ _ _ hrec c hc0 with ⟨⟨e, he, hname1⟩, hnid1⟩
              exact ⟨⟨e, List.mem_cons_of_mem _ he, hname1⟩, hnid1⟩
        · rw [if_neg haf] at h
          rcases hty : type_lookups d.Typ with _ | ty <;> rw [hty] at h
          · simp at h
          · rcases hrec : variants_info_columns bl rest reg with e | ⟨cs, r⟩ <;>
              rw [hrec] at h
            · simp at h
            · injection h with h2
              injection h2 with hcols hreg
              subst hcols
              rcases List.mem_cons.1 hc with hc0 | hc0
              · exact hhead _ hc0
              · rcases ih _ _ _ hrec c hc0 with ⟨⟨e, he, hname1⟩, hnid1⟩
                exact ⟨⟨e, List.mem_cons_of_mem _ he, hname1⟩, hnid1⟩

/-- Witness for C10: the `FOO` header entry of the concrete run yields
the column `foo`, which satisfies the naming property. -/
theorem claim_C10_witness :
    (∃ e ∈ c9info, (Col.mk "foo" (SqlT.varchar 5)).name = specColumnName e.ID) ∧
    (Col.mk "foo" (SqlT.varchar 5)).name ≠ "id" :=
  claim_C10 [] c9info [] [⟨"foo", SqlT.varchar 5⟩] [] (by decide)
    ⟨"foo", SqlT.varchar 5⟩ (by decide)

/-! ## C8 — annotation header registration -/

/-- C8: registering a header annotation entry whose id is not CSQ, ANN
or EFF raises (with the registry left unchanged — the pair's first
component is the input registry); for the three supported ids with a
well-formed description (one containing a colon) registration succeeds
and stores the parsed ordered sub-field list under the id.  Concretely,
a standard ANN description parses into its bar-separated field names. -/
theorem claim_C8 :
    (∀ (hdr : InfoEntry) (reg : Registry), hdr.ID ∉ effect_list →
        update_impacts_headers hdr reg =
          (reg, some ("do not know how to use " ++ hdr.ID ++ " as annotation")))
    ∧ (∀ (hdr : InfoEntry) (reg : Registry), hdr.ID ∈ effect_list →
        (pyAfterFirst ':' hdr.Description).isSome →
        ∃ parts, update_impacts_headers hdr reg = (aput reg hdr.ID parts, none) ∧
          aget (update_impacts_headers hdr reg).1 hdr.ID = some parts)
    ∧ update_impacts_headers ⟨"ANN", "String", c8AnnDesc⟩ [] =
        ([("ANN", ["Allele", "Annotation", "Annotation_Impact", "Gene_Name"])], none) := by
  refine ⟨?_, ?_, ?_⟩
  · intro hdr reg h
    simp only [effect_list, List.mem_cons, List.not_mem_nil, or_false] at h
    push_neg at h
    rcases h with ⟨h1, h2, h3⟩
    simp [update_impacts_headers, h1, h2, h3]
  · intro hdr reg hin hsome
    rcases Option.isSome_iff_exists.1 hsome with ⟨tail, htail⟩
    simp only [effect_list, List.mem_cons, List.not_mem_nil, or_false] at hin
    rcases hin with hid | hid | hid
    · refine ⟨(splitOnChars ['|', '('] (pyStrip wsChars tail)).map
        (pyStrip [' ', '[', ']', ')', sq, '(', dq]), ?_, ?_⟩ <;>
        simp [update_impacts_headers, hid, htail, aget_aput_self]
    · refine ⟨(regexSplitPipeWs (pyStrip [dq, ' '] tail)).map (pyStrip [dq, sq]), ?_, ?_⟩ <;>
        simp [update_impacts_headers, hid, htail, aget_aput_self]
    · refine ⟨(splitOnChars ['|', '('] (pyStrip wsChars tail)).map
        (pyStrip [' ', '[', ']', ')', sq, '(', dq]), ?_, ?_⟩ <;>
        simp [update_impacts_headers, hid, htail, aget_aput_self]
  · decide

/-- Witness for C8 at the concrete ANN header entry. -/
theorem claim_C8_witness :
    ∃ parts, update_impacts_headers ⟨"ANN", "String", c8AnnDesc⟩ [] =
      (aput [] "ANN" parts, none) ∧
      aget (update_impacts_headers ⟨"ANN", "String", c8AnnDesc⟩ []).1 "ANN" = some parts :=
  claim_C8.2.1 ⟨"ANN", "String", c8AnnDesc⟩ [] (by decide) (by decide)

/-! ## C6 — representative selection and the `noner` sentinel -/

/-- Every impact row produced by a successful `gene_info` call carries
the same `variant_id` as the transformed primary row (helper shared by
the C3 and C4 developments). -/
theorem gene_info_gi_vid {blobber : DVal → DVal} {req_cols : List String}
    {d : Dict} {cands : List Candidate} {u : Dict} {gis : List Dict}
    (h : gene_info blobber req_cols (d, cands) = .ok (u, gis)) :
    ∀ gi ∈ gis, aget gi "variant_id" = aget u "variant_id" := by
  simp only [gene_info] at h
  split at h
  · cases h
  · rename_i d2 heq1
    split at h
    · cases h
    · rename_i gis0 heq2
      cases h
      intro gi hgi
      rcases mapExcept_mem heq2 gi hgi with ⟨c, hc, hfc⟩
      rcases heqv : aget (gene_info_u req_cols d2) "variant_id" with _ | vid <;>
        simp [giRowFor, heqv] at hfc
      rw [← hfc]
      simp [giRow, aget]

/-- C6: with at least one candidate the representative is the first
candidate (in decoding order) of maximal severity rank; with no
candidates it is the `noner` sentinel, whose every queried field is
null; and the impact table receives exactly one row per real candidate
(the sentinel contributes none). -/
theorem claim_C6 :
    (∀ impacts : List Candidate, impacts ≠ [] →
        gene_info_top impacts =
          impacts.find? (fun c => c.sevRank = maxRank impacts) ∧
        (gene_info_top impacts).isSome = true)
    ∧ gene_info_top [] = none
    ∧ (∀ k : String, getattrC none k = .vnull)
    ∧ (∀ (blobber : DVal → DVal) (req_cols : List String) (d : Dict)
          (cands : List Candidate) (u : Dict) (gis : List Dict),
        gene_info blobber req_cols (d, cands) = .ok (u, gis) →
        gis.length = cands.length) := by
  refine ⟨?_, rfl, fun _ => rfl, ?_⟩
  · intro impacts hne
    obtain ⟨c0, hc0, hp0⟩ := exists_mem_maxRank impacts hne
    have hmem : c0 ∈ impacts.filter (fun c => c.sevRank = maxRank impacts) :=
      List.mem_filter.2 ⟨hc0, by simp [hp0]⟩
    have hemp : impacts.isEmpty = false := by
      cases impacts
      · exact absurd rfl hne
      · rfl
    have hmain : gene_info_top impacts =
        impacts.find? (fun c => c.sevRank = maxRank impacts) := by
      rw [← head?_filter]
      simp only [gene_info_top, top_severity, hemp, Bool.false_eq_true, if_false]
      rcases hf : impacts.filter (fun c => c.sevRank = maxRank impacts) with _ | ⟨c, cs⟩
      · rw [hf] at hmem
        simp at hmem
      · cases cs with
        | nil => rw [hf]; rfl
        | cons c2 cs2 => rw [hf]
    refine ⟨hmain, ?_⟩
    rw [hmain]
    rw [List.find?_isSome]
    exact ⟨c0, hc0, by simp [hp0]⟩
  · intro blobber req_cols d cands u gis h
    simp only [gene_info] at h
    split at h
    · cases h
    · rename_i d2 heq1
      split at h
      · cases h
      · rename_i gis0 heq2
        cases h
        exact mapExcept_length heq2

/-- Witness for C6: three candidates at severities 3, 2, 3 — the
representative is the first maximal-severity candidate. -/
theorem claim_C6_witness :
    gene_info_top [mkCand "g1" 3, mkCand "g2" 2, mkCand "g3" 3] =
      some (mkCand "g1" 3) ∧
    (gene_info_top [mkCand "g1" 3, mkCand "g2" 2, mkCand "g3" 3]).isSome = true := by
  have h := claim_C6.1 [mkCand "g1" 3, mkCand "g2" 2, mkCand "g3" 3]
    (List.cons_ne_nil _ _)
  exact ⟨h.1.trans (by decide), h.2⟩

/-! ## C2 — degraded row-level retry -/

/-- Claim C2 as stated is false: with a chunk of one valid and one
invalid row, the bulk insert fails, the row-level retry hits the bad
row inside the single transaction — which rolls back, so the valid row
is NOT committed — and the bad row's own error (not the original bulk
failure) propagates. -/
theorem claim_C2_counterexample :
    __insert c2eng "variants" [c2good, c2bad] ⟨[]⟩ =
      (⟨[]⟩, some (.rowFail "variants" c2bad)) ∧
    ¬ ClaimC2At c2eng "variants" [c2good, c2bad] ⟨[]⟩ := by
  constructor
  · decide
  · decide

/-- C2 amended: a failing bulk insert is re-attempted one row at a time
inside a single transaction; when every row individually succeeds they
are all committed and the original bulk failure is re-raised; when some
row fails, that row's own error propagates and the transaction rolls
back, committing none of the chunk; a successful bulk insert commits
everything in one bulk write with no retry and no error. -/
theorem claim_C2_amended :
    ∀ (eng : Engine) (t : String) (objs : List Dict) (db : DB),
      objs.length ≤ 6000 →
      ((eng.bulkExtra t objs || !(objs.all (eng.rowOk t))) = false →
        __insert eng t objs db =
          (⟨db.log ++ objs.map (fun d => (t, Mode.bulk, d))⟩, none))
      ∧ ((eng.bulkExtra t objs || !(objs.all (eng.rowOk t))) = true →
          ((objs.all (eng.rowOk t)) = true →
            __insert eng t objs db =
              (⟨db.log ++ objs.map (fun d => (t, Mode.row, d))⟩,
               some (.bulkFail t)))
          ∧ (∀ bad, objs.find? (fun d => ! eng.rowOk t d) = some bad →
              __insert eng t objs db = (db, some (.rowFail t bad)))) := by
  intro eng t objs db hlen
  have hnot : ¬ objs.length > 6000 := by omega
  refine ⟨?_, ?_⟩
  · intro hfalse
    simp [__insert, if_neg hnot, tryInsert, engineExecuteMany, hfalse]
  · intro htrue
    refine ⟨?_, ?_⟩
    · intro hall
      have hfind : objs.find? (fun d => ! eng.rowOk t d) = none := by
        rw [List.find?_eq_none]
        intro x hx
        simp [List.all_eq_true.1 hall x hx]
      simp [__insert, if_neg hnot, tryInsert, engineExecuteMany, engineBeginRows,
        htrue, hfind]
    · intro bad hbad
      simp [__insert, if_neg hnot, tryInsert, engineExecuteMany, engineBeginRows,
        htrue, hbad]

/-- Witness for the amended C2 theorem: a one-row chunk that bulk
inserts cleanly. -/
theorem claim_C2_witness :
    __insert c2eng "variants" [c2good] ⟨[]⟩ =
      (⟨[("variants", Mode.bulk, c2good)]⟩, none) :=
  (claim_C2_amended c2eng "variants" [c2good] ⟨[]⟩ (by decide)).1 (by decide)

/-! ## C1 — width monotonicity and pre-insert growth -/

theorem le_set_column_length_width (cur req : Nat) :
    cur ≤ set_column_length_width cur req := by
  unfold set_column_length_width
  split <;> omega

theorem req_le_set_column_length_width (cur req : Nat) :
    req ≤ set_column_length_width cur req := by
  unfold set_column_length_width
  split <;> omega

theorem aget_set_column_length (cols : List (String × Nat)) (q : String)
    (m : Nat) (k : String) :
    aget (set_column_length cols q m) k =
      (aget cols k).map (fun v => if k = q then set_column_length_width v m else v) := by
  induction cols with
  | nil => simp [set_column_length, aget]
  | cons hd tl ih =>
    obtain ⟨k0, v0⟩ := hd
    simp only [set_column_length, List.map_cons, aget]
    by_cases hk : k0 = k
    · subst hk
      simp
    · simp only [if_neg hk]
      exact ih

theorem aget_applyLengths_exists (changes : List (String × Nat)) :
    ∀ (cols : List (String × Nat)) (k : String) (l' : Nat),
      aget (applyLengths cols changes) k = some l' →
      ∃ v, aget cols k = some v ∧ v ≤ l' := by
  induction changes with
  | nil => intro cols k l' h; exact ⟨l', h, le_refl _⟩
  | cons ch rest ih =>
    intro cols k l' h
    simp only [applyLengths, List.foldl_cons] at h
    rcases ih _ _ _ h with ⟨v1, hv1, hle1⟩
    rw [aget_set_column_length] at hv1
    rcases hv : aget cols k with _ | v0 <;> rw [hv] at hv1
    · cases hv1
    · simp at hv1
      refine ⟨v0, rfl, ?_⟩
      by_cases hq : k = ch.1
      · rw [if_pos hq] at hv1
        have := le_set_column_length_width v0 ch.2
        omega
      · rw [if_neg hq] at hv1
        omega

theorem aget_applyLengths_ge (changes : List (String × Nat)) :
    ∀ (cols : List (String × Nat)) (k : String) (m l' : Nat),
      (k, m) ∈ changes →
      aget (applyLengths cols changes) k = some l' → m ≤ l' := by
  induction changes with
  | nil => intro cols k m l' hmem; simp at hmem
  | cons ch rest ih =>
    intro cols k m l' hmem h
    simp only [applyLengths, List.foldl_cons] at h
    rcases List.mem_cons.1 hmem with hm0 | hm0
    · subst hm0
      rcases aget_applyLengths_exists rest _ _ _ h with ⟨v1, hv1, hle1⟩
      rw [aget_set_column_length] at hv1
      rcases hv : aget cols k with _ | v0 <;> rw [hv] at hv1
      · cases hv1
      · simp at hv1
        have := req_le_set_column_length_width v0 m
        omega
    · exact ih _ _ _ _ hm0 h

theorem le_maxExceed_start (k : String) (l : Nat) :
    ∀ (dicts : List Dict) (acc : Nat),
      acc ≤ dicts.foldl
        (fun acc d =>
          if lenOrZero (aget d k) > l then max acc (lenOrZero (aget d k)) else acc)
        acc := by
  intro dicts
  induction dicts with
  | nil => intro acc; simp
  | cons d rest ih =>
    intro acc
    simp only [List.foldl_cons]
    split
    · exact le_trans (le_max_left _ _) (ih _)
    · exact ih _

theorem maxExceed_ge (k : String) (l : Nat) :
    ∀ (dicts : List Dict) (acc : Nat) (d : Dict), d ∈ dicts →
      l < lenOrZero (aget d k) →
      lenOrZero (aget d k) ≤ dicts.foldl
        (fun acc d =>
          if lenOrZero (aget d k) > l then max acc (lenOrZero (aget d k)) else acc)
        acc := by
  intro dicts
  induction dicts with
  | nil => intro acc d hd; simp at hd
  | cons d0 rest ih =>
    intro acc d hd hgt
    rcases List.mem_cons.1 hd with h0 | h0
    · subst h0
      simp only [List.foldl_cons, if_pos hgt]
      exact le_trans (le_max_right _ _) (le_maxExceed_start k l rest _)
    · simp only [List.foldl_cons]
      exact ih _ _ h0 hgt

/-- The central pre-insert fit property: after applying the growth
requests computed by `check_column_lengths` for a batch, every string
value of the batch fits the (first) declared width of its column. -/
theorem check_column_lengths_fit (cols : List (String × Nat)) (dicts : List Dict)
    (k : String) (l' : Nat)
    (h : aget (applyLengths cols (check_column_lengths dicts cols)) k = some l') :
    ∀ d ∈ dicts, lenOrZero (aget d k) ≤ l' := by
  intro d hd
  rcases aget_applyLengths_exists _ _ _ _ h with ⟨base, hbase, hble⟩
  by_cases hlen : lenOrZero (aget d k) ≤ base
  · omega
  · push_neg at hlen
    have hmem : (k, base) ∈ cols := aget_mem hbase
    have hmge : lenOrZero (aget d k) ≤ maxExceed k base dicts :=
      maxExceed_ge k base dicts 0 d hd hlen
    have hmne : ¬ maxExceed k base dicts = 0 := by omega
    have hchange : (k, maxExceed k base dicts) ∈ check_column_lengths dicts cols := by
      refine List.mem_filterMap.2 ⟨(k, base), hmem, ?_⟩
      simp [hmne]
    exact le_trans hmge (aget_applyLengths_ge _ _ _ _ _ hchange h)

/-- `_insert` with empty growth-request lists leaves the declared
column widths unchanged. -/
theorem _insert_cols_nil (eng : Engine) (v_objs vi_objs : List Dict) (st : RunState) :
    (_insert eng [] v_objs [] vi_objs st).1.vcols = st.vcols ∧
    (_insert eng [] v_objs [] vi_objs st).1.vicols = st.vicols := by
  simp only [_insert, applyLengths, List.foldl_nil]
  rcases h1 : __insert eng "variants" v_objs st.db with ⟨db1, e1⟩
  cases e1
  · exact ⟨rfl, rfl⟩
  · exact ⟨rfl, rfl⟩

/-- `insertExpanded` never touches the declared column widths. -/
theorem insertExpanded_cols (eng : Engine) :
    ∀ (exp : List (String × List Dict)) (st : RunState),
      (insertExpanded eng exp st).1.vcols = st.vcols ∧
      (insertExpanded eng exp st).1.vicols = st.vicols := by
  intro exp
  induction exp with
  | nil => intro st; exact ⟨rfl, rfl⟩
  | cons kr rest ih =>
    intro st
    obtain ⟨k, rows⟩ := kr
    simp only [insertExpanded]
    rcases h : __insert eng ("sample_" ++ k) rows st.db with ⟨db', e⟩
    cases e
    · exact ih _
    · exact ⟨rfl, rfl⟩

/-- C1 amended: a declared width never shrinks — `set_column_length`
only ever raises widths, pointwise across a batch of growth requests —
and on a non-sqlite backend the pre-insert check grows every varchar
column so that every string value of the batch fits its width; on
sqlite the check is skipped entirely and the widths stay what they
were, so a longer value is handed to the backend unchecked (sqlite does
not enforce declared varchar widths, so no truncation occurs there
either). -/
theorem claim_C1_amended :
    (∀ cur req : Nat, cur ≤ set_column_length_width cur req)
    ∧ (∀ (changes : List (String × Nat)) (cols : List (String × Nat))
          (k : String) (l' : Nat),
        aget (applyLengths cols changes) k = some l' →
        ∃ v, aget cols k = some v ∧ v ≤ l')
    ∧ (∀ (cols : List (String × Nat)) (dicts : List Dict) (k : String) (l' : Nat),
        aget (applyLengths cols (check_column_lengths dicts cols)) k = some l' →
        ∀ d ∈ dicts, lenOrZero (aget d k) ≤ l')
    ∧ (∀ (eng : Engine) (blobber : DVal → DVal) (req_cols : List String)
          (chunk : List (Dict × List Candidate))
          (expanded : List (String × List Dict)) (st : RunState),
        eng.dialect = "sqlite" →
        (insert eng blobber req_cols chunk expanded st).1.vcols = st.vcols ∧
        (insert eng blobber req_cols chunk expanded st).1.vicols = st.vicols) := by
  refine ⟨le_set_column_length_width, aget_applyLengths_exists, check_column_lengths_fit, ?_⟩
  intro eng blobber req_cols chunk expanded st hdia
  rcases hmap : mapExcept (gene_info blobber req_cols) chunk with e | pairs
  · simp [insert, hmap]
  · have hnil1 : (if eng.dialect = "sqlite" then []
        else check_column_lengths (pairs.map Prod.fst) st.vcols) = [] := by
      simp [hdia]
    have hnil2 : (if eng.dialect = "sqlite" then []
        else check_column_lengths ((pairs.map Prod.snd).flatten) st.vicols) = [] := by
      simp [hdia]
    simp only [insert, hmap, hnil1, hnil2]
    rcases hins : _insert eng [] (pairs.map Prod.fst) []
      ((pairs.map Prod.snd).flatten) st with ⟨st1, e1⟩
    have hcols := _insert_cols_nil eng (pairs.map Prod.fst)
      ((pairs.map Prod.snd).flatten) st
    rw [hins] at hcols
    cases e1
    · have hexp := insertExpanded_cols eng expanded st1
      exact ⟨hexp.1.trans hcols.1, hexp.2.trans hcols.2⟩
    · exact hcols

/-- Witness for the amended C1 theorem: the concrete sqlite
counterexample state, whose widths are untouched by the insert. -/
theorem claim_C1_witness :
    (insert c1eng (fun v => v) c1req [(c1d, [])] [] c1st).1.vcols = c1st.vcols ∧
    (insert c1eng (fun v => v) c1req [(c1d, [])] [] c1st).1.vicols = c1st.vicols :=
  claim_C1_amended.2.2.2 c1eng (fun v => v) c1req [(c1d, [])] [] c1st rfl

/-- Claim C1 as stated is false on sqlite: the 60-character `sub_type`
value is inserted while the declared width is still 12 — the growth
check is skipped for the sqlite dialect. -/
theorem claim_C1_counterexample :
    ¬ ClaimC1At c1eng (fun v => v) c1req [(c1d, [])] [] c1st := by
  decide

/-! ## C4 — variant_id assignment -/

theorem buildD_vid (r : RawRecord) (i : Int) :
    aget (buildD r i) "variant_id" = some (.vint i) := by
  simp [buildD, aget_aput]

theorem _loadDicts_length (rs : List RawRecord) :
    ∀ i : Int, (_loadDicts rs i).length = rs.length := by
  induction rs with
  | nil => intro i; rfl
  | cons r rest ih => intro i; simp [_loadDicts, ih]

theorem _loadDicts_get (rs : List RawRecord) :
    ∀ (i : Int) (n : Nat), n < rs.length →
      ∃ dn, (_loadDicts rs i)[n]? = some dn ∧
        aget dn "variant_id" = some (.vint (i + n)) := by
  induction rs with
  | nil => intro i n h; simp at h
  | cons r rest ih =>
    intro i n h
    cases n with
    | zero =>
      refine ⟨buildD r i, by simp [_loadDicts], ?_⟩
      rw [buildD_vid]
      norm_num
    | succ n0 =>
      have hlt : n0 < rest.length := by
        simp only [List.length_cons] at h
        omega
      rcases ih (i + 1) n0 hlt with ⟨dn, h1, h2⟩
      refine ⟨dn, by simpa [_loadDicts] using h1, ?_⟩
      rw [h2]
      have harith : i + 1 + (n0 : Int) = i + ((n0 + 1 : Nat) : Int) := by
        push_cast
        ring
      rw [harith]

/-- C4: the n-th record of the stream (1-based, across the sampled
prefix and the remainder, whose `start` continues at the prefix's last
index plus one) is assigned `variant_id = n`, and every impact row of a
transformed record carries the same `variant_id` as its primary row. -/
theorem claim_C4 :
    (∀ records : List RawRecord, records ≠ [] →
        ∃ ds, load records = .ok ds ∧ ds.length = records.length ∧
          ∀ n : Nat, n < ds.length →
            ∃ dn, ds[n]? = some dn ∧
              aget dn "variant_id" = some (.vint (n + 1)))
    ∧ (∀ (blobber : DVal → DVal) (req_cols : List String) (d : Dict)
          (cands : List Candidate) (u : Dict) (gis : List Dict),
        gene_info blobber req_cols (d, cands) = .ok (u, gis) →
        ∀ gi ∈ gis, aget gi "variant_id" = aget u "variant_id") := by
  refine ⟨?_, fun blobber req_cols d cands u gis h => gene_info_gi_vid h⟩
  intro records hne
  have hload : load records = .ok
      (_loadDicts (records.take 10000) 1 ++
       _loadDicts (records.drop 10000) (((records.take 10000).length : Int) + 1)) := by
    rcases hc : records.take 10000 with _ | ⟨r0, rest0⟩
    · rcases (List.take_eq_nil_iff.1 hc) with h | h
      · cases h
      · exact absurd h hne
    · simp [load, hc]
  refine ⟨_, hload, ?_, ?_⟩
  · have hsplit : (records.take 10000).length + (records.drop 10000).length =
        records.length := by
      rw [← List.length_append, List.take_append_drop]
    simp only [List.length_append, _loadDicts_length]
    omega
  · intro n hn
    simp only [List.length_append, _loadDicts_length] at hn
    by_cases hleft : n < (records.take 10000).length
    · rcases _loadDicts_get (records.take 10000) 1 n hleft with ⟨dn, h1, h2⟩
      refine ⟨dn, ?_, ?_⟩
      · rw [List.getElem?_append, if_pos (by rw [_loadDicts_length]; exact hleft)]
        exact h1
      · rw [h2]
        have : (1 : Int) + n = n + 1 := by omega
        rw [this]
    · push_neg at hleft
      have hlt : n - (records.take 10000).length < (records.drop 10000).length := by
        omega
      rcases _loadDicts_get (records.drop 10000)
        (((records.take 10000).length : Int) + 1) (n - (records.take 10000).length)
        hlt with ⟨dn, h1, h2⟩
      refine ⟨dn, ?_, ?_⟩
      · rw [List.getElem?_append_right]
        · rw [_loadDicts_length]
          exact h1
        · rw [_loadDicts_length]
          exact hleft
      · rw [h2]
        have harith : ((records.take 10000).length : Int) + 1 +
            ((n - (records.take 10000).length : Nat) : Int) = (n : Int) + 1 := by
          push_cast [Nat.cast_sub hleft]
          ring
        rw [harith]

/-- Witness for C4: a one-record stream, whose single dict receives
`variant_id = 1`. -/
theorem claim_C4_witness :
    ∃ ds, load [c4rec] = .ok ds ∧ ds.length = [c4rec].length ∧
      ∀ n : Nat, n < ds.length →
        ∃ dn, ds[n]? = some dn ∧
          aget dn "variant_id" = some (.vint (n + 1)) :=
  claim_C4.1 [c4rec] (List.cons_ne_nil _ _)

/-! ## C9 — completeness of the transformed primary row -/

theorem aget_adel {β : Type} (l : List (String × β)) (q k : String) :
    aget (adel l q) k = if q = k then none else aget l k := by
  induction l with
  | nil => simp [adel, aget]
  | cons hd tl ih =>
    obtain ⟨k0, v0⟩ := hd
    by_cases h0 : k0 = q
    · subst h0
      by_cases h1 : k0 = k
      · subst h1
        simp [adel, aget, ih]
      · simp [adel, aget, h1, ih]
    · by_cases h1 : k0 = k
      · subst h1
        have : ¬ q = k0 := fun h => h0 h.symm
        simp [adel, aget, h0, this]
      · simp [adel, aget, h0, h1, ih]

theorem aget_foldl_adel_not_mem (ks : List String) :
    ∀ (d : Dict) (k : String), k ∉ ks → aget (ks.foldl adel d) k = aget d k := by
  induction ks with
  | nil => intro d k h; rfl
  | cons k0 rest ih =>
    intro d k h
    simp only [List.mem_cons, not_or] at h
    simp only [List.foldl_cons]
    rw [ih _ _ h.2, aget_adel, if_neg (fun hk => h.1 hk.symm)]

theorem foldl_aput_not_mem {α : Type} (f : α → String) (g : α → DVal)
    (l : List α) :
    ∀ (u : Dict) (k : String), (∀ a ∈ l, f a ≠ k) →
      aget (l.foldl (fun u a => aput u (f a) (g a)) u) k = aget u k := by
  induction l with
  | nil => intro u k h; rfl
  | cons a rest ih =>
    intro u k h
    simp only [List.foldl_cons]
    rw [ih _ _ (fun b hb => h b (List.mem_cons_of_mem _ hb)),
      aget_aput_ne _ _ _ _ (h a (List.mem_cons_self _ _))]

theorem foldl_aput_isSome {α : Type} (f : α → String) (g : α → DVal)
    (l : List α) :
    ∀ (u : Dict) (k : String), (aget u k).isSome = true →
      (aget (l.foldl (fun u a => aput u (f a) (g a)) u) k).isSome = true := by
  induction l with
  | nil => intro u k h; exact h
  | cons a rest ih =>
    intro u k h
    simp only [List.foldl_cons]
    refine ih _ _ ?_
    rw [aget_aput]
    by_cases hk : f a = k
    · simp [hk]
    · simp [hk, h]

theorem foldl_aput_write {α : Type} (f : α → String) (g : α → DVal)
    (l : List α) :
    ∀ (u : Dict) (a0 : α), a0 ∈ l → (l.map f).Nodup →
      aget (l.foldl (fun u a => aput u (f a) (g a)) u) (f a0) = some (g a0) := by
  induction l with
  | nil => intro u a0 h; simp at h
  | cons a rest ih =>
    intro u a0 h hnd
    simp only [List.map_cons, List.nodup_cons] at hnd
    simp only [List.foldl_cons]
    rcases List.mem_cons.1 h with h0 | h0
    · subst h0
      rw [foldl_aput_not_mem f g rest _ _
        (fun b hb heq => hnd.1 (by rw [← heq]; exact List.mem_map_of_mem f hb))]
      exact aget_aput_self _ _ _
    · exact ih _ _ h0 hnd.2

theorem aget_fromkeys_aux (ks : List String) :
    ∀ (acc : Dict) (k : String),
      aget (ks.foldl (fun u k2 => aput u k2 .vnull) acc) k =
        if k ∈ ks then some .vnull else aget acc k := by
  induction ks with
  | nil => intro acc k; simp
  | cons k0 rest ih =>
    intro acc k
    simp only [List.foldl_cons, ih, aget_aput]
    by_cases hm : k ∈ rest
    · simp [hm]
    · by_cases h0 : k0 = k
      · subst h0
        simp [hm]
      · have : ¬ k = k0 := fun h => h0 h.symm
        simp [hm, h0, this]

theorem aget_fromkeys_mem (ks : List String) (k : String) (h : k ∈ ks) :
    aget (fromkeys ks) k = some .vnull := by
  rw [fromkeys, aget_fromkeys_aux, if_pos h]

theorem aget_updateDict_of_none (d : Dict) :
    ∀ (u : Dict) (k : String), aget d k = none →
      aget (updateDict u d) k = aget u k := by
  induction d with
  | nil => intro u k h; rfl
  | cons hd tl ih =>
    obtain ⟨k0, v0⟩ := hd
    intro u k h
    simp only [aget] at h
    by_cases h0 : k0 = k
    · rw [if_pos h0] at h
      cases h
    · rw [if_neg h0] at h
      simp only [updateDict, List.foldl_cons] at *
      rw [ih _ _ h, aget_aput_ne _ _ _ _ h0]

theorem aget_updateDict_of_mem (d : Dict) :
    ∀ (u : Dict) (k : String) (v : DVal), (akeys d).Nodup → aget d k = some v →
      aget (updateDict u d) k = some v := by
  induction d with
  | nil => intro u k v _ h; cases h
  | cons hd tl ih =>
    obtain ⟨k0, v0⟩ := hd
    intro u k v hnd h
    simp only [akeys, List.map_cons, List.nodup_cons] at hnd
    simp only [aget] at h
    simp only [updateDict, List.foldl_cons] at *
    by_cases h0 : k0 = k
    · subst h0
      rw [if_pos rfl] at h
      injection h with h
      subst h
      have htl : aget tl k0 = none := by
        rcases ha : aget tl k0 with _ | w
        · rfl
        · exact absurd (List.mem_map_of_mem Prod.fst (aget_mem ha)) hnd.1
      exact (aget_updateDict_of_none tl (aput u k0 v0) k0 htl).trans
        (aget_aput_self _ _ _)
    · rw [if_neg h0] at h
      exact ih _ _ _ hnd.2 h

theorem akeys_aput {β : Type} (l : List (String × β)) (k : String) (v : β) :
    akeys (aput l k v) = if k ∈ akeys l then akeys l else akeys l ++ [k] := by
  induction l with
  | nil => simp [aput, akeys]
  | cons hd tl ih =>
    obtain ⟨k0, v0⟩ := hd
    by_cases h0 : k0 = k
    · subst h0
      simp [aput, akeys]
    · have hkk0 : ¬ k = k0 := fun h => h0 h.symm
      simp only [aput, if_neg h0, akeys, List.map_cons] at *
      rw [ih]
      by_cases hm : k ∈ List.map Prod.fst tl
      · simp [List.mem_cons, hm]
      · simp [List.mem_cons, hm, hkk0]

theorem nodup_akeys_aput (l : Dict) (k : String) (v : DVal)
    (h : (akeys l).Nodup) : (akeys (aput l k v)).Nodup := by
  rw [akeys_aput]
  by_cases hm : k ∈ akeys l
  · simpa [hm] using h
  · simp only [if_neg hm, ← List.concat_eq_append]
    exact List.Nodup.concat hm h

theorem adel_sublist {β : Type} (l : List (String × β)) (k : String) :
    (adel l k).Sublist l := by
  induction l with
  | nil => simp [adel]
  | cons hd tl ih =>
    obtain ⟨k0, v0⟩ := hd
    by_cases h0 : k0 = k
    · simp only [adel, if_pos h0]
      exact ih.cons _
    · simp only [adel, if_neg h0]
      exact ih.cons₂ _

theorem nodup_akeys_adel (l : Dict) (k : String) (h : (akeys l).Nodup) :
    (akeys (adel l k)).Nodup :=
  ((adel_sublist l k).map Prod.fst).nodup h

theorem nodup_akeys_foldl_adel (ks : List String) :
    ∀ d : Dict, (akeys d).Nodup → (akeys (ks.foldl adel d)).Nodup := by
  induction ks with
  | nil => intro d h; exact h
  | cons k0 rest ih =>
    intro d h
    exact ih _ (nodup_akeys_adel _ _ h)

theorem nodup_akeys_foldl_aput {α : Type} (f : α → String) (g : α → DVal)
    (l : List α) :
    ∀ u : Dict, (akeys u).Nodup →
      (akeys (l.foldl (fun u a => aput u (f a) (g a)) u)).Nodup := by
  induction l with
  | nil => intro u h; exact h
  | cons a rest ih =>
    intro u h
    exact ih _ (nodup_akeys_aput _ _ _ h)

theorem nodup_akeys_gene_info_d (top : Option Candidate) (d0 : Dict)
    (h : (akeys d0).Nodup) : (akeys (gene_info_d top d0)).Nodup := by
  simp only [gene_info_d]
  refine nodup_akeys_aput _ _ _ (nodup_akeys_aput _ _ _ (nodup_akeys_aput _ _ _ ?_))
  exact nodup_akeys_foldl_aput (fun a => a) (getattrC top) giKeys _
    (nodup_akeys_foldl_adel effect_list _ h)

theorem blobGtCols_aget_ne (blobber : DVal → DVal) :
    ∀ (cs : List String) (d d2 : Dict) (k : String),
      blobGtCols blobber cs d = .ok d2 → (∀ c ∈ cs, c ≠ k) →
      aget d2 k = aget d k := by
  intro cs
  induction cs with
  | nil =>
    intro d d2 k h _
    injection h with h
    rw [h]
  | cons c rest ih =>
    intro d d2 k h hne
    simp only [blobGtCols] at h
    rcases hv : aget d c with _ | v <;> rw [hv] at h
    · cases h
    · rw [ih _ _ _ h (fun b hb => hne b (List.mem_cons_of_mem _ hb)),
        aget_aput_ne _ _ _ _ (hne c (List.mem_cons_self _ _))]

theorem blobGtCols_nodup (blobber : DVal → DVal) :
    ∀ (cs : List String) (d d2 : Dict),
      blobGtCols blobber cs d = .ok d2 → (akeys d).Nodup → (akeys d2).Nodup := by
  intro cs
  induction cs with
  | nil =>
    intro d d2 h hnd
    injection h with h
    rw [← h]
    exact hnd
  | cons c rest ih =>
    intro d d2 h hnd
    simp only [blobGtCols] at h
    rcases hv : aget d c with _ | v <;> rw [hv] at h
    · cases h
    · exact ih _ _ h (nodup_akeys_aput _ _ _ hnd)

theorem gene_info_d_impact (top : Option Candidate) (d0 : Dict) :
    aget (gene_info_d top d0) "impact_severity" =
      some (getattrC top "effect_severity") ∧
    aget (gene_info_d top d0) "impact" =
      some (getattrC top "top_consequence") := by
  constructor <;> simp [gene_info_d, aget_aput]

theorem gene_info_d_not_lower (top : Option Candidate) (d0 : Dict) (k : String)
    (hlow : pyIsLower k = false) (heff : k ∉ effect_list) :
    aget (gene_info_d top d0) k = aget d0 k := by
  have hgik : ∀ kk ∈ giKeys, pyIsLower kk = true := by decide
  have hne : ∀ kk ∈ giKeys, kk ≠ k := by
    intro kk hkk heq
    have hk := hgik kk hkk
    rw [heq, hlow] at hk
    simp at hk
  have h1 : ("impact_severity" : String) ≠ k := by
    intro heq
    rw [← heq] at hlow
    exact absurd hlow (by decide)
  have h2 : ("impact_so" : String) ≠ k := by
    intro heq
    rw [← heq] at hlow
    exact absurd hlow (by decide)
  have h3 : ("impact" : String) ≠ k := by
    intro heq
    rw [← heq] at hlow
    exact absurd hlow (by decide)
  simp only [gene_info_d]
  rw [aget_aput_ne _ _ _ _ h1, aget_aput_ne _ _ _ _ h2, aget_aput_ne _ _ _ _ h3,
    foldl_aput_not_mem (fun a => a) (getattrC top) giKeys _ _ hne,
    aget_foldl_adel_not_mem _ _ _ heff]

theorem gene_info_ok_shape {blobber : DVal → DVal} {req_cols : List String}
    {d : Dict} {cands : List Candidate} {u : Dict} {gis : List Dict}
    (h : gene_info blobber req_cols (d, cands) = .ok (u, gis)) :
    ∃ d2, blobGtCols blobber gt_cols (gene_info_d (gene_info_top cands) d) = .ok d2 ∧
      u = gene_info_u req_cols d2 := by
  simp only [gene_info] at h
  split at h
  · cases h
  · rename_i d2 heq1
    split at h
    · cases h
    · cases h
      exact ⟨d2, heq1, rfl⟩

/-- C9 amended: the transformed primary row has an entry (null by
default) for every key of `req_cols` — the set of keys observed in the
records processed so far in the current `_load` pass, accumulated across
flushes (the `keys` set is created once per pass, line 171, grown per
record, line 196, and never reset at a flush, lines 200–204), not the
declared table columns, see the counterexample; the impact-summary
columns carry the representative candidate's values (null via the
sentinel when there are no candidates) provided no observed
non-lowercase key lowercases to an impact-summary name (the aliasing
loop of lines 614–615 runs after the summary assignments and would
overwrite them); and each non-lowercase observed key feeds the single
canonical lowercase key. -/
theorem claim_C9_amended :
    ∀ (blobber : DVal → DVal) (req_cols : List String) (d : Dict)
      (cands : List Candidate) (u : Dict) (gis : List Dict),
      gene_info blobber req_cols (d, cands) = .ok (u, gis) →
      (∀ k ∈ req_cols, (aget u k).isSome = true)
      ∧ ((akeys d).Nodup →
          (∀ k ∈ req_cols, pyIsLower k = false →
            pyLower k ≠ "impact_severity" ∧ pyLower k ≠ "impact") →
          aget u "impact_severity" =
            some (getattrC (gene_info_top cands) "effect_severity") ∧
          aget u "impact" =
            some (getattrC (gene_info_top cands) "top_consequence"))
      ∧ (∀ k, k ∈ req_cols → pyIsLower k = false → k ∉ effect_list →
          ((req_cols.filter (fun k2 => ! pyIsLower k2)).map pyLower).Nodup →
          aget u (pyLower k) = some (agetD d k)) := by
  intro blobber req_cols d cands u gis h
  rcases gene_info_ok_shape h with ⟨d2, hblob, hu⟩
  subst hu
  refine ⟨?_, ?_, ?_⟩
  · intro k hk
    simp only [gene_info_u]
    refine foldl_aput_isSome pyLower (agetD d2) _ _ _ ?_
    refine foldl_aput_isSome Prod.fst Prod.snd d2 _ _ ?_
    rw [aget_fromkeys_mem req_cols k hk]
    rfl
  · intro hnd hcoll
    have hnd2 : (akeys d2).Nodup :=
      blobGtCols_nodup blobber gt_cols _ _ hblob (nodup_akeys_gene_info_d _ _ hnd)
    have hgt1 : ∀ c ∈ gt_cols, c ≠ "impact_severity" := by decide
    have hgt2 : ∀ c ∈ gt_cols, c ≠ "impact" := by decide
    have h1 : aget d2 "impact_severity" =
        some (getattrC (gene_info_top cands) "effect_severity") := by
      rw [blobGtCols_aget_ne blobber gt_cols _ _ _ hblob hgt1]
      exact (gene_info_d_impact _ _).1
    have h2 : aget d2 "impact" =
        some (getattrC (gene_info_top cands) "top_consequence") := by
      rw [blobGtCols_aget_ne blobber gt_cols _ _ _ hblob hgt2]
      exact (gene_info_d_impact _ _).2
    have hne1 : ∀ a ∈ req_cols.filter (fun k2 => ! pyIsLower k2),
        pyLower a ≠ "impact_severity" := by
      intro a ha
      have hma := List.mem_filter.1 ha
      exact (hcoll a hma.1 (by simpa using hma.2)).1
    have hne2 : ∀ a ∈ req_cols.filter (fun k2 => ! pyIsLower k2),
        pyLower a ≠ "impact" := by
      intro a ha
      have hma := List.mem_filter.1 ha
      exact (hcoll a hma.1 (by simpa using hma.2)).2
    constructor
    · simp only [gene_info_u]
      rw [foldl_aput_not_mem pyLower (agetD d2) _ _ _ hne1]
      exact aget_updateDict_of_mem d2 _ _ _ hnd2 h1
    · simp only [gene_info_u]
      rw [foldl_aput_not_mem pyLower (agetD d2) _ _ _ hne2]
      exact aget_updateDict_of_mem d2 _ _ _ hnd2 h2
  · intro k hk hlow heff hnd
    simp only [gene_info_u]
    have hmem : k ∈ req_cols.filter (fun k2 => ! pyIsLower k2) :=
      List.mem_filter.2 ⟨hk, by simp [hlow]⟩
    have hgt : ∀ c ∈ gt_cols, c ≠ k := by
      have hl : ∀ c ∈ gt_cols, pyIsLower c = true := by decide
      intro c hc heq
      have hc2 := hl c hc
      rw [heq, hlow] at hc2
      simp at hc2
    have hval : agetD d2 k = agetD d k := by
      simp only [agetD]
      rw [blobGtCols_aget_ne blobber gt_cols _ _ _ hblob hgt,
        gene_info_d_not_lower _ _ _ hlow heff]
    rw [foldl_aput_write pyLower (agetD d2) _ _ _ hmem hnd, hval]

/-- Claim C9 as stated is false: a header-declared string attribute
`FOO` yields the declared column `foo`, but when no record seen so far
in the `_load` pass carries `FOO` — here the pass's first record — the
transformed row has no `foo` entry at all: the row covers the keys
observed so far in the pass, not the declared columns. -/
theorem claim_C9_counterexample :
    (variants_info_columns [] c9info []).map (fun p => p.1.map Col.name) =
      .ok ["foo"] ∧
    (gene_info (fun v => v) c9req (c9d, [])).toOption.isSome = true ∧
    aget c9u "foo" = none := by
  refine ⟨by decide, by decide, by decide⟩

/-- Witness for the amended C9 theorem at the concrete record. -/
theorem claim_C9_witness : (aget c9u "variant_id").isSome = true := by
  have h := claim_C9_amended (fun v => v) c9req c9d [] c9u [] (by decide)
  exact h.1 "variant_id" (by decide)

/-! ## C3 — primary-before-impact ordering and the foreign-key invariant -/

theorem grouper_flatten {α : Type} (n : Nat) : ∀ l : List α, (grouper n l).flatten = l
  | [] => by simp [grouper]
  | x :: xs => by
    have ih := grouper_flatten n (xs.drop (n - 1))
    rw [grouper, List.flatten_cons, ih, List.cons_append, List.take_append_drop]
termination_by l => l.length
decreasing_by
  simp only [List.length_cons, List.length_drop]
  omega

theorem tryInsert_log (eng : Engine) (t : String) (g : List Dict) (db : DB) :
    ∃ ds, (tryInsert eng t g db).1.log = db.log ++ ds ∧
      ∀ e ∈ ds, e.1 = t ∧ e.2.2 ∈ g := by
  by_cases hb : (eng.bulkExtra t g || !(g.all (eng.rowOk t))) = true
  · rcases hf : g.find? (fun d => ! eng.rowOk t d) with _ | bad
    · refine ⟨g.map (fun d => (t, Mode.row, d)), ?_, ?_⟩
      · simp [tryInsert, engineExecuteMany, engineBeginRows, hb, hf]
      · intro e he
        rcases List.mem_map.1 he with ⟨d0, hd0, he0⟩
        rw [← he0]
        exact ⟨rfl, hd0⟩
    · refine ⟨[], ?_, by simp⟩
      simp [tryInsert, engineExecuteMany, engineBeginRows, hb, hf]
  · refine ⟨g.map (fun d => (t, Mode.bulk, d)), ?_, ?_⟩
    · simp [tryInsert, engineExecuteMany, hb]
    · intro e he
      rcases List.mem_map.1 he with ⟨d0, hd0, he0⟩
      rw [← he0]
      exact ⟨rfl, hd0⟩

theorem insertGroups_log (eng : Engine) (t : String) :
    ∀ (gs : List (List Dict)) (db : DB),
      ∃ ds, (insertGroups eng t gs db).1.log = db.log ++ ds ∧
        ∀ e ∈ ds, e.1 = t ∧ e.2.2 ∈ gs.flatten := by
  intro gs
  induction gs with
  | nil => intro db; exact ⟨[], by simp [insertGroups], by simp⟩
  | cons g rest ih =>
    intro db
    simp only [insertGroups]
    rcases ht : tryInsert eng t g db with ⟨db1, e1⟩
    rcases tryInsert_log eng t g db with ⟨ds1, hds1, hp1⟩
    rw [ht] at hds1
    cases e1
    · rcases ih db1 with ⟨ds2, hds2, hp2⟩
      refine ⟨ds1 ++ ds2, ?_, ?_⟩
      · rw [hds2, hds1, List.append_assoc]
      · intro e he
        rcases List.mem_append.1 he with h | h
        · refine ⟨(hp1 e h).1, ?_⟩
          rw [List.flatten_cons]
          exact List.mem_append.2 (.inl (hp1 e h).2)
        · refine ⟨(hp2 e h).1, ?_⟩
          rw [List.flatten_cons]
          exact List.mem_append.2 (.inr (hp2 e h).2)
    · refine ⟨ds1, hds1, ?_⟩
      intro e he
      refine ⟨(hp1 e he).1, ?_⟩
      rw [List.flatten_cons]
      exact List.mem_append.2 (.inl (hp1 e he).2)

theorem __insert_log (eng : Engine) (t : String) (objs : List Dict) (db : DB) :
    ∃ ds, (__insert eng t objs db).1.log = db.log ++ ds ∧
      ∀ e ∈ ds, e.1 = t ∧ e.2.2 ∈ objs := by
  by_cases hlen : objs.length > 6000
  · simp only [__insert, if_pos hlen]
    rcases insertGroups_log eng t (grouper 5000 objs) db with ⟨ds, h1, h2⟩
    exact ⟨ds, h1, fun e he =>
      ⟨(h2 e he).1, grouper_flatten 5000 objs ▸ (h2 e he).2⟩⟩
  · simp only [__insert, if_neg hlen]
    exact tryInsert_log eng t objs db

theorem tryInsert_ok (eng : Engine) (t : String) (g : List Dict) (db db' : DB)
    (h : tryInsert eng t g db = (db', none)) :
    db'.log = db.log ++ g.map (fun d => (t, Mode.bulk, d)) := by
  by_cases hb : (eng.bulkExtra t g || !(g.all (eng.rowOk t))) = true
  · rcases hf : g.find? (fun d => ! eng.rowOk t d) with _ | bad <;>
      simp [tryInsert, engineExecuteMany, engineBeginRows, hb, hf] at h
  · simp [tryInsert, engineExecuteMany, hb] at h
    rw [← h]

theorem insertGroups_ok (eng : Engine) (t : String) :
    ∀ (gs : List (List Dict)) (db db' : DB),
      insertGroups eng t gs db = (db', none) →
      db'.log = db.log ++ gs.flatten.map (fun d => (t, Mode.bulk, d)) := by
  intro gs
  induction gs with
  | nil =>
    intro db db' h
    injection h with h1 _
    rw [← h1]
    simp
  | cons g rest ih =>
    intro db db' h
    simp only [insertGroups] at h
    rcases ht : tryInsert eng t g db with ⟨db1, e1⟩
    rw [ht] at h
    cases e1
    · have h1 := tryInsert_ok eng t g db db1 ht
      have h2 := ih db1 db' h
      rw [h2, h1]
      simp [List.flatten_cons, List.append_assoc]
    · simp at h

theorem __insert_ok (eng : Engine) (t : String) (objs : List Dict) (db db' : DB)
    (h : __insert eng t objs db = (db', none)) :
    db'.log = db.log ++ objs.map (fun d => (t, Mode.bulk, d)) := by
  by_cases hlen : objs.length > 6000
  · simp only [__insert, if_pos hlen] at h
    have h2 := insertGroups_ok eng t (grouper 5000 objs) db db' h
    rwa [grouper_flatten] at h2
  · simp only [__insert, if_neg hlen] at h
    exact tryInsert_ok eng t objs db db' h

theorem insertExpanded_log (eng : Engine) :
    ∀ (exp : List (String × List Dict)) (st : RunState),
      ∃ cs, (insertExpanded eng exp st).1.db.log = st.db.log ++ cs ∧
        ∀ e ∈ cs, ∃ k2 : String, e.1 = "sample_" ++ k2 := by
  intro exp
  induction exp with
  | nil => intro st; exact ⟨[], by simp [insertExpanded], by simp⟩
  | cons kr rest ih =>
    intro st
    obtain ⟨k, rows⟩ := kr
    simp only [insertExpanded]
    rcases h1 : __insert eng ("sample_" ++ k) rows st.db with ⟨db1, e1⟩
    rcases __insert_log eng ("sample_" ++ k) rows st.db with ⟨ds, hds, hp⟩
    rw [h1] at hds
    cases e1
    · rcases ih { st with db := db1 } with ⟨cs2, hcs2, hp2⟩
      refine ⟨ds ++ cs2, ?_, ?_⟩
      · rw [hcs2]
        simp only []
        rw [hds, List.append_assoc]
      · intro e he
        rcases List.mem_append.1 he with h | h
        · exact ⟨k, (hp e h).1⟩
        · exact hp2 e h
    · exact ⟨ds, hds, fun e he => ⟨k, (hp e he).1⟩⟩

/-- C3: within every flushed chunk the committed log grows by a
`variants` segment, then a `variant_impacts` segment, then expansion
(`sample_*`) segments — in that order — and every committed impact row
has a committed primary row with the same `variant_id` in the earlier
`variants` segment. -/
theorem claim_C3 :
    ∀ (eng : Engine) (blobber : DVal → DVal) (req_cols : List String)
      (chunk : List (Dict × List Candidate))
      (expanded : List (String × List Dict)) (st : RunState),
      ∃ A B C,
        (insert eng blobber req_cols chunk expanded st).1.db.log =
          st.db.log ++ (A ++ B ++ C) ∧
        (∀ e ∈ A, e.1 = "variants") ∧
        (∀ e ∈ B, e.1 = "variant_impacts") ∧
        (∀ e ∈ C, ∃ k2 : String, e.1 = "sample_" ++ k2) ∧
        (∀ e ∈ B, ∃ a ∈ A, aget a.2.2 "variant_id" = aget e.2.2 "variant_id") := by
  intro eng blobber req_cols chunk expanded st
  rcases hmap : mapExcept (gene_info blobber req_cols) chunk with err | pairs
  · refine ⟨[], [], [], ?_, by simp, by simp, by simp, by simp⟩
    simp [insert, hmap]
  · simp only [insert, hmap, _insert]
    rcases h1 : __insert eng "variants" (pairs.map Prod.fst) st.db with ⟨db1, e1⟩
    rcases __insert_log eng "variants" (pairs.map Prod.fst) st.db with ⟨dsA, hdsA, hpA⟩
    rw [h1] at hdsA
    replace hdsA : db1.log = st.db.log ++ dsA := hdsA
    cases e1 with
    | some e =>
      refine ⟨dsA, [], [], ?_, fun e2 he2 => (hpA e2 he2).1, by simp, by simp, by simp⟩
      simp [hdsA]
    | none =>
      have hAeq : db1.log = st.db.log ++
          (pairs.map Prod.fst).map (fun d => ("variants", Mode.bulk, d)) :=
        __insert_ok eng "variants" _ st.db db1 h1
      simp only [List.append_nil]
      rcases h2 : __insert eng "variant_impacts" ((pairs.map Prod.snd).flatten) db1
        with ⟨db2, e2⟩
      rcases __insert_log eng "variant_impacts" ((pairs.map Prod.snd).flatten) db1
        with ⟨dsB, hdsB, hpB⟩
      rw [h2] at hdsB
      replace hdsB : db2.log = db1.log ++ dsB := hdsB
      have hFKgen : ∀ e : String × Mode × Dict,
          e.2.2 ∈ (pairs.map Prod.snd).flatten →
          ∃ a ∈ (pairs.map Prod.fst).map (fun d => ("variants", Mode.bulk, d)),
            aget a.2.2 "variant_id" = aget e.2.2 "variant_id" := by
        intro e hmem
        rcases List.mem_flatten.1 hmem with ⟨s, hs, hsmem⟩
        rcases List.mem_map.1 hs with ⟨p, hp, hps⟩
        obtain ⟨u0, gis0⟩ := p
        rcases mapExcept_mem hmap (u0, gis0) hp with ⟨x, hx, hgx⟩
        obtain ⟨dx, cx⟩ := x
        have hsm : e.2.2 ∈ gis0 := by
          rw [← hps] at hsmem
          exact hsmem
        have hv := gene_info_gi_vid hgx e.2.2 hsm
        refine ⟨("variants", Mode.bulk, u0), ?_, hv.symm⟩
        exact List.mem_map.2 ⟨u0, List.mem_map.2 ⟨(u0, gis0), hp, rfl⟩, rfl⟩
      have hAname : ∀ e2 ∈ (pairs.map Prod.fst).map
          (fun d => ("variants", Mode.bulk, d)), (e2 : String × Mode × Dict).1 = "variants" := by
        intro e2 he2
        rcases List.mem_map.1 he2 with ⟨d0, _, he0⟩
        rw [← he0]
      cases e2 with
      | some e =>
        refine ⟨(pairs.map Prod.fst).map (fun d => ("variants", Mode.bulk, d)),
          dsB, [], ?_, hAname, fun e2 he2 => (hpB e2 he2).1, by simp,
          fun e2 he2 => hFKgen e2 (hpB e2 he2).2⟩
        simp [hdsB, hAeq, List.append_assoc]
      | none =>
        have hBeq : db2.log = db1.log ++
            ((pairs.map Prod.snd).flatten).map
              (fun d => ("variant_impacts", Mode.bulk, d)) :=
          __insert_ok eng "variant_impacts" _ db1 db2 h2
        rcases insertExpanded_log eng expanded
          ⟨db2,
           applyLengths st.vcols
             (if eng.dialect = "sqlite" then []
              else check_column_lengths (pairs.map Prod.fst) st.vcols),
           applyLengths st.vicols
             (if eng.dialect = "sqlite" then []
              else check_column_lengths ((pairs.map Prod.snd).flatten) st.vicols)⟩
          with ⟨cs, hcs, hpC⟩
        replace hcs : (insertExpanded eng expanded
          ⟨db2,
           applyLengths st.vcols
             (if eng.dialect = "sqlite" then []
              else check_column_lengths (pairs.map Prod.fst) st.vcols),
           applyLengths st.vicols
             (if eng.dialect = "sqlite" then []
              else check_column_lengths ((pairs.map Prod.snd).flatten) st.vicols)⟩).1.db.log =
          db2.log ++ cs := hcs
        refine ⟨(pairs.map Prod.fst).map (fun d => ("variants", Mode.bulk, d)),
          ((pairs.map Prod.snd).flatten).map
            (fun d => ("variant_impacts", Mode.bulk, d)),
          cs, ?_, hAname, ?_, hpC, ?_⟩
        · simp only [hcs]
          rw [hBeq, hAeq]
          simp [List.append_assoc]
        · intro e2 he2
          rcases List.mem_map.1 he2 with ⟨d0, _, he0⟩
          rw [← he0]
        · intro e2 he2
          rcases List.mem_map.1 he2 with ⟨d0, hd0, he0⟩
          refine hFKgen e2 ?_
          rw [← he0]
          exact hd0

/-- Witness for C3 at a concrete chunk. -/
theorem claim_C3_witness :
    ∃ A B C,
      (insert c1eng (fun v => v) c1req [(c1d, [])] [] c1st).1.db.log =
        c1st.db.log ++ (A ++ B ++ C) ∧
      (∀ e ∈ A, e.1 = "variants") ∧
      (∀ e ∈ B, e.1 = "variant_impacts") ∧
      (∀ e ∈ C, ∃ k2 : String, e.1 = "sample_" ++ k2) ∧
      (∀ e ∈ B, ∃ a ∈ A, aget a.2.2 "variant_id" = aget e.2.2 "variant_id") :=
  claim_C3 c1eng (fun v => v) c1req [(c1d, [])] [] c1st

end Vcf2db
